import Mathlib

/-!
Verification development for the agentic crypto researcher's core pipeline:
session memory, indicator engine, resilient fetch layer with caching,
asset resolution, data tools, the planner, and the streaming orchestrator.

Conventions of the shallow embedding:
* Python strings are `String`; helpers (`pyStrip`, `pyLower`, `pySlice`, …)
  mirror the exact Python primitives used by the code.
* Floating point arithmetic is idealized over `Rat`; NaN propagation
  (pandas) is modelled with `Option Rat`.
* I/O (HTTP responses, LLM completions) is supplied by oracle values or
  functions; the embedded code is a pure function of those oracles.
* Mutable process state (cache map, session map) is threaded explicitly.
-/

deriving instance DecidableEq for Except

/-! ### Python string primitives -/

/-- `str.lower()` (ASCII case folding, which covers every string the code builds). -/
def pyLower (s : String) : String := String.mk (s.data.map Char.toLower)

/-- `str.upper()`. -/
def pyUpper (s : String) : String := String.mk (s.data.map Char.toUpper)

/-- whitespace strip on character lists, both ends. -/
def pyStripChars (cs : List Char) : List Char :=
  ((cs.dropWhile Char.isWhitespace).reverse.dropWhile Char.isWhitespace).reverse

/-- `str.strip()`. -/
def pyStrip (s : String) : String := String.mk (pyStripChars s.data)

/-- `s[:n]` on a Python string (first `n` code points). -/
def pySlice (n : Nat) (s : String) : String := String.mk (s.data.take n)

/-- substring membership on character lists (`needle in haystack`). -/
def hasSub (needle : List Char) : List Char → Bool
  | [] => needle.isEmpty
  | c :: t => needle.isPrefixOf (c :: t) || hasSub needle t

/-- Python `needle in s` for strings. -/
def strHas (needle s : String) : Bool := hasSub needle.data s.data

/-- split a character list at every character equal to `c`
(`n` separators yield `n+1` pieces, empties included). -/
def splitSegP (p : Char → Bool) : List Char → List (List Char)
  | [] => [[]]
  | x :: t =>
    if p x then [] :: splitSegP p t
    else
      match splitSegP p t with
      | [] => [[x]]
      | s :: rest => (x :: s) :: rest

/-- split at a single separator character. -/
def splitSeg (c : Char) (cs : List Char) : List (List Char) := splitSegP (· = c) cs

/-- `sep.join(pieces)` on character lists, `sep` the one-character list of `c`. -/
def joinSegChars (c : Char) : List (List Char) → List Char
  | [] => []
  | [x] => x
  | x :: y :: rest => x ++ c :: joinSegChars c (y :: rest)

/-- `sep.join(pieces)` where `sep` is the one-character string of `c`. -/
def joinWith (c : Char) (l : List String) : String :=
  String.mk (joinSegChars c (l.map String.data))

/-- Python truthiness of an optional string (`None` and `""` are falsy). -/
def pyTruthy : Option String → Bool
  | some s => !s.isEmpty
  | none => false

/-- Python `a or b` over optional strings. -/
def pyOrS (a b : Option String) : Option String := if pyTruthy a then a else b

/-- Python `str(x or "")` over an optional string. -/
def optStr (a : Option String) : String := if pyTruthy a then a.getD "" else ""

/-! ### Session memory (`agent/memory.py`) -/

/-- One dialogue turn (`Turn` dataclass). -/
structure Turn where
  role : String
  content : String
deriving DecidableEq

/-- `SessionMemory` dataclass. -/
structure SessionMemory where
  sessionId : String
  summary : String
  turns : List Turn
  pending : List Turn
  lastCryptoSymbol : Option String
  lastSeen : Nat
deriving DecidableEq

/-- fresh session, as built on first `get` of an unseen id. -/
def SessionMemory.fresh (sid : String) (now : Nat) : SessionMemory :=
  { sessionId := sid, summary := "", turns := [], pending := [],
    lastCryptoSymbol := none, lastSeen := now }

/-- `MemoryStore` configuration (the sessions map is threaded separately). -/
structure MemoryStore where
  ttlSeconds : Nat
  keepLastTurns : Nat
  pendingTrigger : Nat
  maxChars : Nat
  summaryTargetChars : Nat
deriving DecidableEq

/-- the `while len(s.turns) > keep: s.pending.append(s.turns.pop(0))` loop of
`MemoryStore.append`. -/
def spillOld (keep : Nat) (pending turns : List Turn) : List Turn × List Turn :=
  if turns.length > keep then
    match turns with
    | [] => (pending, [])
    | t :: rest => spillOld keep (pending ++ [t]) rest
  else (pending, turns)
termination_by turns.length

/-- `MemoryStore.append`: push a verbatim turn, then move overflow to pending. -/
def MemoryStore.append (st : MemoryStore) (s : SessionMemory) (role content : String) :
    SessionMemory :=
  let turns := s.turns ++ [⟨role, content⟩]
  let pt := spillOld st.keepLastTurns s.pending turns
  { s with turns := pt.2, pending := pt.1 }

/-- `MemoryStore._chars`. -/
def MemoryStore.chars (s : SessionMemory) : Nat :=
  s.summary.length + (s.pending.map (fun t => t.content.length)).sum
    + (s.turns.map (fun t => t.content.length)).sum

/-- stats record returned by `maybe_summarize`. -/
structure MemStats where
  approxChars : Nat
  summaryChars : Nat
  turns : Nat
  pendingTurns : Nat
  maxChars : Nat
  wasSummarized : Bool
  droppedTurns : Nat
deriving DecidableEq

/-- a summary line the deterministic post-filter drops: currency symbol,
URL marker, or at least six digit characters. -/
def badLine (ln : String) : Bool :=
  strHas "$" ln || strHas "http" ln || strHas "www." ln
    || 6 ≤ ln.data.countP Char.isDigit

/-- `[ln.strip() for ln in s.splitlines() if ln.strip()]` (the code strips each
line and drops blanks, so modelling `splitlines` as a `'\n'` split is exact up
to the blank lines it already discards). -/
def summaryLines (s : String) : List String :=
  (((splitSeg '\n' s.data).map (fun cs => pyStrip (String.mk cs))).filter
    (fun ln => ln ≠ ""))

/-- deterministic cleanup applied to the candidate summary
(`memory.py` lines 143–155): drop flagged lines, keep at most 6, join,
hard-truncate to the character budget, fall back to a fixed bullet when empty. -/
def postFilter (target : Nat) (s : String) : String :=
  let cleaned := ((summaryLines s).filter (fun ln => !badLine ln)).take 6
  let j := pyStrip (pySlice target (joinWith '\n' cleaned))
  if j = "" then "• (Summary trimmed.)" else j

/-- `"\n".join(f"{t.role}: {t.content}".strip() for t in s.pending)`. -/
def pendingText (s : SessionMemory) : String :=
  joinWith '\n' (s.pending.map (fun t => pyStrip (t.role ++ ": " ++ t.content)))

/-- trigger condition of `maybe_summarize`. -/
def shouldSummarize (st : MemoryStore) (s : SessionMemory) : Bool :=
  !s.pending.isEmpty
    && (decide (st.pendingTrigger ≤ s.pending.length)
        || decide (st.maxChars < MemoryStore.chars s))

/-- the candidate summary before the deterministic post-filter: the stripped
LLM completion when the LLM path ran and succeeded, otherwise the truncation
fallback (`memory.py` lines 105–141). -/
def summaryCandidate (st : MemoryStore) (s : SessionMemory)
    (llm : Option (Except Unit String)) : String :=
  let ptext := pendingText s
  let viaLLM : Option String :=
    match llm with
    | some (Except.ok out) => if pyStrip ptext = "" then none else some (pyStrip out)
    | some (Except.error _) => none
    | none => none
  match viaLLM with
  | some t => t
  | none =>
    if s.summary ≠ "" then pyStrip (pySlice st.summaryTargetChars s.summary ++ " …")
    else "• (Older context summarized/trimmed.)"

/-- `MemoryStore.maybe_summarize`.  The completion capability is an oracle:
`none` when no LLM is configured, `some (Except.error _)` when `llm.chat`
raises (the code falls back to truncation), `some (Except.ok out)` for a
successful completion `out`. -/
def MemoryStore.maybeSummarize (st : MemoryStore) (s : SessionMemory)
    (llm : Option (Except Unit String)) : SessionMemory × MemStats :=
  if shouldSummarize st s then
    let s1 := summaryCandidate st s llm
    let s2 := postFilter st.summaryTargetChars s1
    let dropped := s.pending.length
    let s' := { s with summary := s2, pending := [] }
    (s', { approxChars := MemoryStore.chars s', summaryChars := s2.length,
           turns := s'.turns.length, pendingTurns := 0, maxChars := st.maxChars,
           wasSummarized := true, droppedTurns := dropped })
  else
    (s, { approxChars := MemoryStore.chars s, summaryChars := s.summary.length,
          turns := s.turns.length, pendingTurns := s.pending.length,
          maxChars := st.maxChars, wasSummarized := false, droppedTurns := 0 })

/-- `MemoryStore._cleanup`: drop sessions idle longer than the TTL. -/
def MemoryStore.cleanup (st : MemoryStore) (now : Nat)
    (sessions : List (String × SessionMemory)) : List (String × SessionMemory) :=
  sessions.filter (fun e => !decide (st.ttlSeconds < now - e.2.lastSeen))

/-- `MemoryStore.get`: `None` for a falsy session id; otherwise sweep idle
sessions, then find-or-create and touch `last_seen`. -/
def MemoryStore.get (st : MemoryStore) (sessions : List (String × SessionMemory))
    (sessionId : Option String) (now : Nat) :
    Option SessionMemory × List (String × SessionMemory) :=
  if pyTruthy sessionId then
    let sid := sessionId.getD ""
    let sessions := MemoryStore.cleanup st now sessions
    match sessions.find? (fun e => e.1 = sid) with
    | some e =>
      let s := { e.2 with lastSeen := now }
      (some s, (sid, s) :: sessions.filter (fun e => e.1 ≠ sid))
    | none =>
      let s := SessionMemory.fresh sid now
      (some s, (sid, s) :: sessions)
  else (none, sessions)

/-- write a (mutated) session back into the map. -/
def putSession (sessions : List (String × SessionMemory)) (s : SessionMemory) :
    List (String × SessionMemory) :=
  (s.sessionId, s) :: sessions.filter (fun e => e.1 ≠ s.sessionId)

/-! ### Indicator engine (`tools._compute_rsi_macd`)

pandas `Series.ewm(span=n, adjust=False).mean()` is the recurrence
`y₀ = x₀`, `yₜ = (1-α)·yₜ₋₁ + α·xₜ` with `α = 2/(n+1)`, idealized over `Rat`.
NaN values (`diff()`'s leading entry, incomplete rolling windows, the
`loss.replace(0, nan)` division guard) are modelled as `Option Rat`. -/

/-- one exponential smoothing step. -/
def emaNext (a y x : Rat) : Rat := (1 - a) * y + a * x

/-- the tail of the smoothed series starting from accumulator `y`. -/
def emaFrom (a y : Rat) : List Rat → List Rat
  | [] => []
  | x :: xs => emaNext a y x :: emaFrom a (emaNext a y x) xs

/-- `series.ewm(span=span, adjust=False).mean()`, seeded from the first value. -/
def ewmMean (span : Nat) : List Rat → List Rat
  | [] => []
  | x :: xs => x :: emaFrom ((2 : Rat) / ((span : Rat) + 1)) x xs

/-- first differences from a previous value. -/
def diffsFrom (p : Rat) : List Rat → List Rat
  | [] => []
  | x :: xs => (x - p) :: diffsFrom x xs

/-- last value of `series.rolling(14).mean()` over a series with NaNs:
defined only when the final window holds 14 non-NaN entries. -/
def lastRolling14 (l : List (Option Rat)) : Option Rat :=
  if l.length < 14 then none
  else
    let w := l.drop (l.length - 14)
    if w.all (fun d => d.isSome) then some ((w.filterMap id).sum / 14) else none

/-- last RSI(14) value: rolling means of clipped first differences, with the
`loss.replace(0, nan)` guard; `none` models the NaN the source propagates. -/
def rsiLast (closes : List Rat) : Option Rat :=
  match closes with
  | [] => none
  | x :: xs =>
    let deltas : List (Option Rat) := none :: (diffsFrom x xs).map some
    let gains := deltas.map (fun d => d.map (fun v => max v 0))
    let losses := deltas.map (fun d => d.map (fun v => max (-v) 0))
    match lastRolling14 gains, lastRolling14 losses with
    | some g, some l => if l = 0 then none else some (100 - 100 / (1 + g / l))
    | _, _ => none

/-- MACD block of `_compute_rsi_macd`'s result. -/
structure MacdOut where
  line : Rat
  signal : Rat
  histogram : Rat
  label : String
deriving DecidableEq

/-- result of `_compute_rsi_macd`. -/
structure RsiMacd where
  rsi14 : Option Rat
  macd : MacdOut
deriving DecidableEq

/-- `tools._compute_rsi_macd` (the source indexes `iloc[-1]` of a non-empty
series; the `getD 0` defaults are unreachable for the non-empty series the
caller guarantees). -/
def computeRsiMacd (closes : List Rat) : RsiMacd :=
  let ema12 := ewmMean 12 closes
  let ema26 := ewmMean 26 closes
  let macdLine := List.zipWith (fun a b => a - b) ema12 ema26
  let signal := ewmMean 9 macdLine
  let hist := List.zipWith (fun a b => a - b) macdLine signal
  let histLast := (hist.getLast?).getD 0
  { rsi14 := rsiLast closes,
    macd := { line := (macdLine.getLast?).getD 0, signal := (signal.getLast?).getD 0,
              histogram := histLast,
              label := if 0 ≤ histLast then "bullish" else "bearish" } }

/-! ### Resilient fetch layer (`tools._http_get_json`)

The upstream is an oracle mapping the attempt index to that attempt's
outcome.  The embedding mirrors the source's control flow exactly — in
particular, the broad `except Exception` around the whole attempt body
catches the `raise err` meant for non-retryable statuses, so every failing
attempt falls through to the next loop iteration. -/

/-- what one upstream attempt produces. -/
inductive AttemptOutcome where
  | transportErr
  | response (status : Nat) (body : String) (retryAfter : Option Int) (jsonOk : Bool)
deriving DecidableEq

/-- payload of a raised `HttpGetError`. -/
structure HttpGetErrorInfo where
  url : String
  statusCode : Nat
  bodySnippet : String
  retryAfterS : Option Int
deriving DecidableEq

/-- error recorded in `last_err` during the retry loop. -/
inductive FetchFailure where
  | transport
  | httpErr (e : HttpGetErrorInfo)
deriving DecidableEq

/-- body snippet construction: strip, newline to space, truncate at 220. -/
def bodySnippet (body : String) : String :=
  let b := pyStrip body
  let b := String.mk (b.data.map (fun c => if c = '\n' then ' ' else c))
  if 220 < b.length then pySlice 220 b ++ "…" else b

/-- outcome of the whole `_http_get_json` call: `attempts` counts upstream
attempts, `result` is the successful attempt's index or the final
`RuntimeError` wrapping `last_err`, `sleepsMs` records the back-off delays. -/
structure HttpRunResult where
  result : Except (Option FetchFailure) Nat
  attempts : Nat
  sleepsMs : List Nat
deriving DecidableEq

/-- the retry loop (`for attempt in range(3)`), `fuel` counting the remaining
iterations and `att` the current attempt index. -/
def httpGetJsonGo (o : Nat → AttemptOutcome) (url : String) :
    Nat → Option FetchFailure → Nat → List Nat → HttpRunResult
  | 0, lastErr, att, sleeps => { result := .error lastErr, attempts := att, sleepsMs := sleeps }
  | fuel + 1, _lastErr, att, sleeps =>
    match o att with
    | .transportErr =>
      httpGetJsonGo o url fuel (some .transport) (att + 1) (sleeps ++ [500 * (att + 1)])
    | .response st body ra jsonOk =>
      if 400 ≤ st then
        let err := FetchFailure.httpErr ⟨url, st, bodySnippet body, ra⟩
        if (st = 429 ∨ st = 500 ∨ st = 502 ∨ st = 503 ∨ st = 504) ∧ att < 2 then
          httpGetJsonGo o url fuel (some err) (att + 1) (sleeps ++ [600 * (att + 1)])
        else
          -- the `raise err` lands in the enclosing broad `except`, which
          -- records it and sleeps 0.5·(attempt+1) before the next iteration
          httpGetJsonGo o url fuel (some err) (att + 1) (sleeps ++ [500 * (att + 1)])
      else if jsonOk then
        { result := .ok att, attempts := att + 1, sleepsMs := sleeps }
      else
        httpGetJsonGo o url fuel
          (some (.httpErr ⟨url, st, bodySnippet body, none⟩)) (att + 1)
          (sleeps ++ [500 * (att + 1)])

/-- `tools._http_get_json` (three attempts total). -/
def httpGetJson (o : Nat → AttemptOutcome) (url : String) : HttpRunResult :=
  httpGetJsonGo o url 3 none 0 []

/-! ### Shared cache and tool state (`tools.py`)

`_CACHE` maps `(kind, normalized key)` to `(expiry, value)`.  Each kind
stores a differently shaped value, so the embedding splits the map by kind
into typed association lists with unique keys; `now` is the clock and the
`…Log` lists record the upstream endpoint calls (one entry per
`_http_get_json` invocation) with their arguments. -/

/-- `_cache_get`: expiry check with evict-on-read. -/
def cacheGet {V : Type} (now : Nat) (m : List (String × Nat × V)) (k : String) :
    Option V × List (String × Nat × V) :=
  match m.find? (fun e => e.1 = k) with
  | some e =>
    if now < e.2.1 then (some e.2.2, m) else (none, m.filter (fun e => e.1 ≠ k))
  | none => (none, m)

/-- `_cache_set`: fixed TTL from the point of write. -/
def cacheSet {V : Type} (now ttl : Nat) (m : List (String × Nat × V)) (k : String)
    (v : V) : List (String × Nat × V) :=
  (k, now + ttl, v) :: m.filter (fun e => e.1 ≠ k)

/-- provenance record (`Source` dataclass). -/
structure SourceRef where
  name : String
  endpoint : String
  docs : String
deriving DecidableEq

def coingeckoMarketChartSource : SourceRef :=
  { name := "CoinGecko",
    endpoint := "GET /coins/\x7bid\x7d/market_chart?vs_currency=usd&days=30",
    docs := "https://docs.coingecko.com/reference/coins-id-market-chart" }

def coingeckoSearchSource : SourceRef :=
  { name := "CoinGecko", endpoint := "GET /search?query=\x7bsymbol\x7d",
    docs := "https://docs.coingecko.com/reference/search" }

def coingeckoCoinSource : SourceRef :=
  { name := "CoinGecko", endpoint := "GET /coins/\x7bid\x7d",
    docs := "https://docs.coingecko.com/reference/coins-id" }

def geckoterminalSearchPoolsSource : SourceRef :=
  { name := "GeckoTerminal",
    endpoint := "GET /search/pools?query=\x7bquery\x7d&include=base_token,quote_token,dex",
    docs := "https://api.geckoterminal.com/api-docs" }

def geckoterminalPoolSource : SourceRef :=
  { name := "GeckoTerminal",
    endpoint := "GET /networks/\x7bnetwork\x7d/pools/\x7baddress\x7d?include=base_token,quote_token,dex",
    docs := "https://api.geckoterminal.com/api-docs" }

def cryptopanicSource : SourceRef :=
  { name := "CryptoPanic",
    endpoint := "GET /api/developer/v2/posts/?auth_token=\x7bkey\x7d&currencies=\x7bSYMBOL\x7d&public=true",
    docs := "https://cryptopanic.com/developers/api/" }

/-- errors a tool body can raise.  `httpGet` is a directly raised
`HttpGetError`; `runtime` is a `RuntimeError` (optionally caused by a typed
fetch error, as when `_http_get_json` exhausts its retries); `valueErr` is a
`ValueError`. -/
inductive ToolErr where
  | httpGet (e : HttpGetErrorInfo)
  | runtime (msg : String) (cause : Option HttpGetErrorInfo)
  | valueErr (msg : String)
deriving DecidableEq

/-- `str(e)` for the errors above (`HttpGetError.__init__` joins its bits
with " · "). -/
def httpGetErrorStr (e : HttpGetErrorInfo) : String :=
  "HTTP " ++ toString e.statusCode ++ " · " ++ e.url ++
    (match e.retryAfterS with
     | some r => " · retry_after_s=" ++ toString r
     | none => "") ++
    (if e.bodySnippet ≠ "" then " · body=" ++ e.bodySnippet else "")

def toolErrMsg : ToolErr → String
  | .httpGet e => httpGetErrorStr e
  | .runtime m _ => m
  | .valueErr m => m

/-- one row of CoinGecko `/search`'s `coins` array (JSON fields the code reads). -/
structure CoinRow where
  id : Option String
  name : Option String
  symbol : Option String
  marketCapRank : Option Int
deriving DecidableEq

/-- JSON fields `get_token_profile` reads from CoinGecko `/coins/{id}`. -/
structure ProfileRaw where
  name : Option String
  imageLarge : Option String
  imageSmall : Option String
  imageThumb : Option String
  homepageFirst : Option String
deriving DecidableEq

/-- JSON fields `get_latest_news` reads from one CryptoPanic post. -/
structure NewsRow where
  title : Option String
  originalUrl : Option String
  cpUrl : Option String
  postId : Option Int
  slug : Option String
  sourceDomain : Option String
  publishedAt : Option String
  createdAt : Option String
  votesBullish : Option Int
  votesBearish : Option Int
  description : Option String
deriving DecidableEq

/-- fields `search_geckoterminal_pools` extracts from one pool row after
joining the `included` records (the JSON plumbing is abstracted into this
already-joined shape). -/
structure GTRow where
  poolId : Option String
  poolName : Option String
  attrsAddress : Option String
  reserveInUsd : Option Rat
  baseTokenPriceUsd : Option Rat
  priceChangeH24 : Option Rat
  dexId : Option String
  dexName : Option String
  baseName : Option String
  baseSym : Option String
  baseAddress : Option String
  baseImageUrl : Option String
  quoteName : Option String
  quoteSym : Option String
  quoteAddress : Option String
  quoteImageUrl : Option String
deriving DecidableEq

/-- fields `get_geckoterminal_pool` extracts for a single pool. -/
structure PoolRaw where
  name : Option String
  reserveInUsd : Option Rat
  baseTokenPriceUsd : Option Rat
  priceChangeRaw : Option String
  volumeUsdRaw : Option String
  transactionsRaw : Option String
  dexId : Option String
  dexName : Option String
  baseName : Option String
  baseSym : Option String
  baseAddress : Option String
  baseImageUrl : Option String
  quoteName : Option String
  quoteSym : Option String
  quoteAddress : Option String
  quoteImageUrl : Option String
deriving DecidableEq

/-- the upstream HTTP endpoints, as oracles from request arguments to the
outcome of the corresponding `_http_get_json` call (already shaped into the
JSON fields the code reads). -/
structure HttpOracle where
  search : String → Except ToolErr (List CoinRow)
  marketChart : String → Except ToolErr (List (Int × Rat))
  coinProfile : String → Except ToolErr ProfileRaw
  newsPosts : String → Except ToolErr (List NewsRow)
  gtSearch : String → Except ToolErr (List GTRow)
  gtPool : String → String → Except ToolErr PoolRaw

/-! ### Data tool results -/

structure RangeStats where
  lowUsd : Rat
  highUsd : Rat
  pctFromLow : Option Rat
  pctFromHigh : Option Rat
deriving DecidableEq

/-- 30-day volatility block.  The source stores `rets.std()` and
`std·√365`; squares are kept here since `√` leaves `Rat` (a one-return
series, whose sample std is NaN, is `none`). -/
structure VolStats where
  dailyReturnVarSq : Option Rat
  annualizedVarSq : Option Rat
deriving DecidableEq

structure PricePoint where
  t : Int
  p : Rat
deriving DecidableEq

structure MarketData where
  symbol : String
  coinId : String
  days : Nat
  lastPriceUsd : Rat
  range30d : RangeStats
  volatility30d : VolStats
  priceSeries : List PricePoint
  indicators : RsiMacd
  sources : List SourceRef
deriving DecidableEq

structure TokenProfile where
  symbol : String
  coinId : String
  name : Option String
  imageUrl : Option String
  homepage : Option String
  coingeckoUrl : String
  sources : List SourceRef
deriving DecidableEq

structure NewsItem where
  title : String
  url : Option String
  domain : Option String
  publishedAt : Option String
  sentiment : String
  sentimentSource : String
deriving DecidableEq

structure NewsResult where
  symbol : String
  items : List NewsItem
  sources : List SourceRef
deriving DecidableEq

structure TokenBrief where
  name : Option String
  symbol : Option String
  address : Option String
  imageUrl : Option String
deriving DecidableEq

structure GTItem where
  id : Option String
  network : Option String
  address : Option String
  name : Option String
  dexId : Option String
  dexName : Option String
  liquidityUsd : Option Rat
  baseToken : TokenBrief
  quoteToken : TokenBrief
  priceUsd : Option Rat
  priceChangePctH24 : Option Rat
  poolUrl : Option String
deriving DecidableEq

structure GTSearchResult where
  query : String
  items : List GTItem
  sources : List SourceRef
deriving DecidableEq

structure PoolResult where
  id : String
  network : String
  address : String
  name : Option String
  dexId : Option String
  dexName : Option String
  liquidityUsd : Option Rat
  priceUsd : Option Rat
  priceChangeRaw : Option String
  volumeUsdRaw : Option String
  transactionsRaw : Option String
  baseToken : TokenBrief
  quoteToken : TokenBrief
  poolUrl : String
  sources : List SourceRef
deriving DecidableEq

/-- the process-wide mutable tool state: per-kind slices of `_CACHE`, the
clock, and per-endpoint upstream call logs. -/
structure ToolsState where
  now : Nat
  idCache : List (String × Nat × String)
  marketCache : List (String × Nat × MarketData)
  profileCache : List (String × Nat × TokenProfile)
  newsCache : List (String × Nat × NewsResult)
  gtSearchCache : List (String × Nat × GTSearchResult)
  gtPoolCache : List (String × Nat × PoolResult)
  searchLog : List String
  chartLog : List String
  profileLog : List String
  newsLog : List String
  gtSearchLog : List String
  gtPoolLog : List String
deriving DecidableEq

def ToolsState.fresh (now : Nat) : ToolsState :=
  { now := now, idCache := [], marketCache := [], profileCache := [],
    newsCache := [], gtSearchCache := [], gtPoolCache := [],
    searchLog := [], chartLog := [], profileLog := [], newsLog := [],
    gtSearchLog := [], gtPoolLog := [] }

/-! ### Asset resolution (`tools._symbol_to_coingecko_id` and friends) -/

/-- the fixed override table of well-known tickers. -/
def overrides : List (String × String) :=
  [("btc", "bitcoin"), ("eth", "ethereum"), ("sol", "solana"),
   ("ada", "cardano"), ("xrp", "ripple"), ("doge", "dogecoin")]

/-- `tools._symbol_to_coingecko_id`. -/
def symbolToCoingeckoId (o : HttpOracle) (ttl : Nat) (symbol : String)
    (st : ToolsState) : Except ToolErr String × ToolsState :=
  let sym := pyLower (pyStrip symbol)
  match overrides.find? (fun p => p.1 = sym) with
  | some p => (.ok p.2, st)
  | none =>
    let gc := cacheGet st.now st.idCache sym
    let st := { st with idCache := gc.2 }
    match gc.1 with
    | some cid => (.ok cid, st)
    | none =>
      let st := { st with searchLog := st.searchLog ++ [sym] }
      match o.search sym with
      | .error e => (.error e, st)
      | .ok coins =>
        match coins with
        | [] =>
          (.error (.valueErr
            ("CoinGecko: could not resolve symbol '" ++ sym ++ "' to a coin id.")), st)
        | c0 :: _ =>
          let exact := coins.filter (fun c => pyLower (c.symbol.getD "") = sym)
          let picked := match exact with | p :: _ => p | [] => c0
          match picked.id with
          | some cid =>
            if cid = "" then
              (.error (.valueErr
                ("CoinGecko: search result missing id for symbol '" ++ sym ++ "'.")), st)
            else
              (.ok cid,
               { st with idCache := cacheSet st.now ttl st.idCache sym cid })
          | none =>
            (.error (.valueErr
              ("CoinGecko: search result missing id for symbol '" ++ sym ++ "'.")), st)

/-- `tools.coingecko_search`: thin `/search` wrapper normalizing each row. -/
def coingeckoSearch (o : HttpOracle) (query : String) (st : ToolsState) :
    Except ToolErr (List CoinRow) × ToolsState :=
  let q := pyStrip query
  if q = "" then (.ok [], st)
  else
    let st := { st with searchLog := st.searchLog ++ [q] }
    match o.search q with
    | .error e => (.error e, st)
    | .ok coins =>
      (.ok (coins.map (fun c =>
        { id := c.id, name := c.name,
          symbol := if pyTruthy c.symbol then some (pyUpper (c.symbol.getD "")) else none,
          marketCapRank := c.marketCapRank })), st)

/-- one step of stable insertion: place `a` before the first element it
compares `le` to (ties keep the earlier element first). -/
def pyInsert {α : Type} (le : α → α → Bool) (a : α) : List α → List α
  | [] => [a]
  | b :: t => if le a b then a :: b :: t else b :: pyInsert le a t

/-- Python's stable ascending sort (`sorted` / list `.sort`), as structural
insertion sort: a stable sort is uniquely determined by its comparison
preorder, so this agrees with any stable implementation. -/
def pySorted {α : Type} (le : α → α → Bool) : List α → List α
  | [] => []
  | a :: t => pyInsert le a (pySorted le t)

/-- sort key of `resolve_coingecko_id_from_query` (missing rank sorts last). -/
def rankVal (c : CoinRow) : Int := c.marketCapRank.getD (10 ^ 9)

/-- `tools.resolve_coingecko_id_from_query`: best search hit by ascending
market-cap rank. -/
def resolveCoingeckoIdFromQuery (o : HttpOracle) (query : String) (st : ToolsState) :
    Except ToolErr CoinRow × ToolsState :=
  match coingeckoSearch o query st with
  | (.error e, st) => (.error e, st)
  | (.ok coins, st) =>
    let coins := coins.filter (fun c => pyTruthy c.id)
    match coins with
    | [] =>
      (.error (.valueErr ("CoinGecko: no search results for query '" ++ query ++ "'.")), st)
    | c0 :: _ =>
      let sorted := pySorted (fun a b => decide (rankVal a ≤ rankVal b)) coins
      (.ok ((sorted.head?).getD c0), st)

/-! ### `tools.get_market_data` -/

/-- simple returns `close.pct_change().dropna()`. -/
def pctChanges : List Rat → List Rat
  | [] => []
  | [_] => []
  | a :: b :: t => (b / a - 1) :: pctChanges (b :: t)

/-- sample variance (pandas `std(ddof=1)` squared). -/
def sampleVar (l : List Rat) : Rat :=
  let n : Rat := l.length
  let m := l.sum / n
  (l.map (fun r => (r - m) * (r - m))).sum / (n - 1)

/-- `df.iloc[::stride]`. -/
def strided {α : Type} (stride : Nat) (l : List α) : List α :=
  (l.enum.filter (fun e => e.1 % stride = 0)).map (fun e => e.2)

/-- `tools.get_market_data`: cache check, id resolution, `/market_chart`
fetch, indicator and stats computation, cache write. -/
def getMarketData (o : HttpOracle) (ttl : Nat) (coinSymbol : String)
    (st : ToolsState) : Except ToolErr MarketData × ToolsState :=
  let sym := pyLower (pyStrip coinSymbol)
  let gc := cacheGet st.now st.marketCache sym
  let st := { st with marketCache := gc.2 }
  match gc.1 with
  | some v => (.ok v, st)
  | none =>
    match symbolToCoingeckoId o ttl sym st with
    | (.error e, st) => (.error e, st)
    | (.ok coinId, st) =>
      let st := { st with chartLog := st.chartLog ++ [coinId] }
      match o.marketChart coinId with
      | .error e => (.error e, st)
      | .ok prices =>
        match pySorted (fun a b => decide (a.1 ≤ b.1)) prices with
        | [] =>
          (.error (.runtime
            ("CoinGecko: unexpected market_chart response for '" ++ coinId ++ "'.")
            none), st)
        | p0 :: prest =>
          let close := (p0 :: prest).map (fun p => p.2)
          let c0 := p0.2
          let indicators := computeRsiMacd close
          let low := close.foldl min c0
          let high := close.foldl max c0
          let last := (close.getLast?).getD c0
          let rets := pctChanges close
          let dailyVar : Option Rat :=
            if 2 ≤ rets.length then some (sampleVar rets) else none
          let seriesDf := p0 :: prest
          let seriesDf :=
            if 60 < seriesDf.length then strided (max 1 (seriesDf.length / 60)) seriesDf
            else seriesDf
          let out : MarketData :=
            { symbol := pyUpper sym, coinId := coinId, days := 30,
              lastPriceUsd := last,
              range30d :=
                { lowUsd := low, highUsd := high,
                  pctFromLow := if 0 < low then some (last / low - 1) else none,
                  pctFromHigh := if 0 < high then some (last / high - 1) else none },
              volatility30d :=
                { dailyReturnVarSq := dailyVar,
                  annualizedVarSq := dailyVar.map (fun v => v * 365) },
              priceSeries := seriesDf.map (fun p => { t := p.1, p := p.2 }),
              indicators := indicators,
              sources := [coingeckoMarketChartSource, coingeckoSearchSource] }
          (.ok out,
           { st with marketCache := cacheSet st.now ttl st.marketCache sym out })

/-! ### `tools.get_token_profile` -/

def getTokenProfile (o : HttpOracle) (ttl : Nat) (coinSymbol : String)
    (st : ToolsState) : Except ToolErr TokenProfile × ToolsState :=
  let sym := pyLower (pyStrip coinSymbol)
  let gc := cacheGet st.now st.profileCache sym
  let st := { st with profileCache := gc.2 }
  match gc.1 with
  | some v => (.ok v, st)
  | none =>
    match symbolToCoingeckoId o ttl sym st with
    | (.error e, st) => (.error e, st)
    | (.ok coinId, st) =>
      let st := { st with profileLog := st.profileLog ++ [coinId] }
      match o.coinProfile coinId with
      | .error e => (.error e, st)
      | .ok data =>
        let out : TokenProfile :=
          { symbol := pyUpper sym, coinId := coinId, name := data.name,
            imageUrl := pyOrS (pyOrS data.imageLarge data.imageSmall) data.imageThumb,
            homepage := data.homepageFirst,
            coingeckoUrl := "https://www.coingecko.com/en/coins/" ++ coinId,
            sources := [coingeckoCoinSource, coingeckoSearchSource] }
        (.ok out,
         { st with profileCache := cacheSet st.now ttl st.profileCache sym out })

/-! ### `tools.get_latest_news` -/

/-- drop through the first occurrence of `needle` (helper for netloc parsing). -/
def dropThroughChars (needle : List Char) : List Char → List Char
  | [] => []
  | c :: t =>
    if needle.isPrefixOf (c :: t) then (c :: t).drop needle.length
    else dropThroughChars needle t

/-- `_domain_from_url`: `urlparse(u).netloc` of an absolute URL with a
leading `www.` stripped (the netloc of the scheme-less strings this code can
meet is empty, i.e. `none`). -/
def domainFromUrl (u : Option String) : Option String :=
  match u with
  | some s =>
    if s = "" then none
    else if strHas "//" s then
      let after := String.mk (dropThroughChars "//".data s.data)
      let host := String.mk
        (after.data.takeWhile (fun c => !(c = '/' || c = '?' || c = '#')))
      let host := if String.isPrefixOf "www." host then host.drop 4 else host
      if host = "" then none else some host
    else none
  | none => none

def bullishKw : List String :=
  ["surge", "rally", "breakout", "approval", "inflows", "record", "launch",
   "partnership", "adoption", "wins", "settlement"]

def bearishKw : List String :=
  ["hack", "exploit", "ban", "lawsuit", "charges", "sell-off", "plunge",
   "crash", "liquidation", "downgrade", "outflows"]

/-- `_estimate_sentiment` (bearish keywords dominate). -/
def estimateSentiment (title desc : String) : String :=
  let t := pyLower (title ++ " " ++ desc)
  if bearishKw.any (fun k => strHas k t) then "bearish"
  else if bullishKw.any (fun k => strHas k t) then "bullish"
  else "neutral"

/-- Python truthiness of an optional int (`None` and `0` are falsy). -/
def pyTruthyInt : Option Int → Bool
  | some n => n ≠ 0
  | none => false

/-- build one accepted news item from a post row (`None` when the title is
falsy and the row is skipped). -/
def newsItemOf (wantEstimate : Bool) (r : NewsRow) : Option NewsItem :=
  let url := pyOrS r.originalUrl r.cpUrl
  let url :=
    if pyTruthy url then url
    else if pyTruthyInt r.postId && pyTruthy r.slug then
      some ("https://cryptopanic.com/news/" ++ toString (r.postId.getD 0) ++ "/"
        ++ r.slug.getD "")
    else none
  let domain := pyOrS r.sourceDomain (domainFromUrl url)
  let publishedAt := pyOrS r.publishedAt r.createdAt
  let sentiment : String :=
    if r.votesBullish.isSome || r.votesBearish.isSome then
      if r.votesBearish.getD 0 ≤ r.votesBullish.getD 0 then "bullish" else "bearish"
    else "unknown"
  if pyTruthy r.title then
    let titleS := r.title.getD ""
    let descS := optStr r.description
    let sentimentSource :=
      if sentiment = "bullish" || sentiment = "bearish" then "votes" else "unknown"
    let es :=
      if sentiment = "unknown" && wantEstimate then
        (estimateSentiment titleS descS, "estimated")
      else (sentiment, sentimentSource)
    some { title := titleS, url := url, domain := domain, publishedAt := publishedAt,
           sentiment := es.1, sentimentSource := es.2 }
  else none

/-- `items_all`: accepted items from the first 20 posts. -/
def newsItemsAll (wantEstimate : Bool) (results : List NewsRow) : List NewsItem :=
  (results.take 20).filterMap (newsItemOf wantEstimate)

/-- newest 5 accepted items plus up to 2 later high-signal ones. -/
def pickNewsItems (all : List NewsItem) : List NewsItem :=
  let base := all.take 5
  base ++ ((all.drop 5).filter
    (fun it => it.sentiment = "bullish" || it.sentiment = "bearish")).take
      (7 - base.length)

/-- `tools.get_latest_news` (the API key is the env value, already the `or`
of the two accepted variable names). -/
def getLatestNews (o : HttpOracle) (ttl : Nat) (apiKey : String)
    (wantEstimate : Bool) (coinSymbol : String) (st : ToolsState) :
    Except ToolErr NewsResult × ToolsState :=
  let symbol := pyUpper (pyStrip coinSymbol)
  let gc := cacheGet st.now st.newsCache symbol
  let st := { st with newsCache := gc.2 }
  match gc.1 with
  | some v => (.ok v, st)
  | none =>
    if pyStrip apiKey = "" then
      (.error (.runtime
        "Missing CRYPTOPANIC_API_KEY (or CRYPTOPANIC_AUTH_TOKEN) in environment."
        none), st)
    else
      let st := { st with newsLog := st.newsLog ++ [symbol] }
      match o.newsPosts symbol with
      | .error e => (.error e, st)
      | .ok results =>
        let out : NewsResult :=
          { symbol := symbol,
            items := pickNewsItems (newsItemsAll wantEstimate results),
            sources := [cryptopanicSource] }
        (.ok out, { st with newsCache := cacheSet st.now ttl st.newsCache symbol out })

/-! ### `tools.search_geckoterminal_pools` and `tools.get_geckoterminal_pool`

`difflib.SequenceMatcher(None, a, b).ratio()` is abstracted as a similarity
oracle `sim` that, like the real ratio, lives in `[0, 1]`; the spec fixes
only the relative ordering of the documented cases, which holds for every
such `sim`. -/

/-- lowercase-alphanumeric test for the `[^a-z0-9]+` tokenizer. -/
def isLowerAlnum (c : Char) : Bool :=
  ('a' ≤ c && c ≤ 'z') || ('0' ≤ c && c ≤ '9')

/-- `re.split(r"[^a-z0-9]+", ql)` keeping non-empty pieces. -/
def splitTokens (s : String) : List String :=
  (((splitSegP (fun c => !isLowerAlnum c) s.data).map String.mk).filter
    (fun t => t ≠ ""))

/-- generic/base-currency tokens stripped from the query. -/
def gtStopTokens : List String :=
  ["coin", "token", "crypto", "sol", "eth", "btc", "usdc", "usdt"]

/-- normalized query tokens of the pool search. -/
def qTokensOf (ql : String) : List String :=
  (splitTokens ql).filter (fun t => !gtStopTokens.contains t)

/-- `"{network}_{address}"` split on the last underscore segment. -/
def splitPoolId (pid : String) : Option (String × String) :=
  if strHas "_" pid then
    let parts := (splitSeg '_' pid.data).map String.mk
    match parts.getLast? with
    | some addr =>
      if 2 ≤ parts.length then some (joinWith '_' parts.dropLast, addr) else none
    | none => none
  else none

/-- `f"{pool_name} {base_name} {base_sym}".lower()`. -/
def gtJoined (r : GTRow) : String :=
  pyLower (optStr r.poolName ++ " " ++ optStr r.baseName ++ " " ++ optStr r.baseSym)

/-- relevance score of one candidate (`tools.py` lines 646–659). -/
def gtScore (sim : String → String → Rat) (ql : String) (qTokens : List String)
    (r : GTRow) : Rat :=
  let joined := gtJoined r
  let tokenHit : Rat :=
    if qTokens ≠ [] then
      ((qTokens.countP (fun t => strHas t joined) : Rat)) / (qTokens.length : Rat)
    else 0
  let nameSim : Rat := if ql ≠ "" then sim ql (pySlice 80 joined) else 0
  let liqScore : Rat :=
    match r.reserveInUsd with
    | some v => if 0 < v then min 1 (v / 50000) else 0
    | none => 0
  let base := tokenHit * (65 / 100) + nameSim * (25 / 100) + liqScore * (10 / 100)
  if qTokens ≠ [] ∧ tokenHit = 0 then base - 35 / 100 else base

/-- the compact item built for one candidate row. -/
def gtItemOf (r : GTRow) : GTItem :=
  let na : Option (String × String) :=
    match r.poolId with
    | some pid => splitPoolId pid
    | none => none
  let network := na.map (fun p => p.1)
  let address := na.map (fun p => p.2)
  { id := r.poolId, network := network,
    address := pyOrS address r.attrsAddress,
    name := r.poolName,
    dexId := r.dexId, dexName := r.dexName,
    liquidityUsd := r.reserveInUsd,
    baseToken := { name := r.baseName, symbol := r.baseSym,
                   address := r.baseAddress, imageUrl := r.baseImageUrl },
    quoteToken := { name := r.quoteName, symbol := r.quoteSym,
                    address := r.quoteAddress, imageUrl := r.quoteImageUrl },
    priceUsd := r.baseTokenPriceUsd,
    priceChangePctH24 := r.priceChangeH24,
    poolUrl :=
      if pyTruthy network && pyTruthy address then
        some ("https://www.geckoterminal.com/" ++ network.getD "" ++ "/pools/"
          ++ address.getD "")
      else none }

/-- descending (score, liquidity) comparison used by the final stable sort
(`reverse=True` over the ascending lexicographic key). -/
def gtSortLe (a b : Rat × GTItem) : Bool :=
  let la := (a.2.liquidityUsd).getD 0
  let lb := (b.2.liquidityUsd).getD 0
  decide (b.1 < a.1) || (decide (b.1 = a.1) && decide (lb ≤ la))

/-- candidate window bound `max(1, min(int(limit), 20))`. -/
def gtWindow (limit : Nat) : Nat := max 1 (min limit 20)

/-- scoring, sorting and truncation of `search_geckoterminal_pools`, from the
extracted candidate rows. -/
def rankGTRows (sim : String → String → Rat) (q : String) (limit : Nat)
    (rows : List GTRow) : List GTItem :=
  let ql := pyStrip (pyLower q)
  let qTokens := qTokensOf ql
  let itemsScored := (rows.take (gtWindow limit)).map
    (fun r => (gtScore sim ql qTokens r, gtItemOf r))
  let sorted := pySorted gtSortLe itemsScored
  (sorted.take (gtWindow limit)).map (fun e => e.2)

/-- `tools.search_geckoterminal_pools`. -/
def searchGeckoterminalPools (o : HttpOracle) (sim : String → String → Rat)
    (ttl : Nat) (query : String) (limit : Nat) (st : ToolsState) :
    Except ToolErr GTSearchResult × ToolsState :=
  let q := pyStrip query
  if q = "" then (.ok { query := query, items := [], sources := [] }, st)
  else
    let key := pyLower q
    let gc := cacheGet st.now st.gtSearchCache key
    let st := { st with gtSearchCache := gc.2 }
    match gc.1 with
    | some v => (.ok v, st)
    | none =>
      let st := { st with gtSearchLog := st.gtSearchLog ++ [q] }
      match o.gtSearch q with
      | .error e => (.error e, st)
      | .ok rows =>
        let out : GTSearchResult :=
          { query := q, items := rankGTRows sim q limit rows,
            sources := [geckoterminalSearchPoolsSource] }
        (.ok out,
         { st with gtSearchCache := cacheSet st.now ttl st.gtSearchCache key out })

/-- `tools.get_geckoterminal_pool`. -/
def getGeckoterminalPool (o : HttpOracle) (ttl : Nat) (poolId : String)
    (st : ToolsState) : Except ToolErr PoolResult × ToolsState :=
  let pid := pyStrip poolId
  let invalidMsg :=
    "Invalid GeckoTerminal pool id. Expected format '\x7bnetwork\x7d_\x7baddress\x7d'."
  if pid = "" || !strHas "_" pid then (.error (.valueErr invalidMsg), st)
  else
    match splitPoolId pid with
    | none => (.error (.valueErr invalidMsg), st)
    | some na =>
      let network := na.1
      let address := na.2
      let gc := cacheGet st.now st.gtPoolCache pid
      let st := { st with gtPoolCache := gc.2 }
      match gc.1 with
      | some v => (.ok v, st)
      | none =>
        let st := { st with gtPoolLog := st.gtPoolLog ++ [pid] }
        match o.gtPool network address with
        | .error e => (.error e, st)
        | .ok data =>
          let out : PoolResult :=
            { id := pid, network := network, address := address,
              name := data.name, dexId := data.dexId, dexName := data.dexName,
              liquidityUsd := data.reserveInUsd,
              priceUsd := data.baseTokenPriceUsd,
              priceChangeRaw := data.priceChangeRaw,
              volumeUsdRaw := data.volumeUsdRaw,
              transactionsRaw := data.transactionsRaw,
              baseToken := { name := data.baseName, symbol := data.baseSym,
                             address := data.baseAddress,
                             imageUrl := data.baseImageUrl },
              quoteToken := { name := data.quoteName, symbol := data.quoteSym,
                              address := data.quoteAddress,
                              imageUrl := data.quoteImageUrl },
              poolUrl := "https://www.geckoterminal.com/" ++ network ++ "/pools/"
                ++ address,
              sources := [geckoterminalPoolSource] }
          (.ok out,
           { st with gtPoolCache := cacheSet st.now ttl st.gtPoolCache pid out })

/-! ### Planner (`agent/planner.py`)

`llm.chat` plus `json.loads` is an oracle: `Except.error` when the chat call
raises (which `plan_query` does NOT catch), `Except.ok none` when the reply
is not valid JSON (caught, safe default), `Except.ok (some obj)` for a
parsed object. -/

structure PlanObj where
  intent : Option String
  assetQuery : Option String
  language : Option String
deriving DecidableEq

structure Plan where
  intent : String
  assetQuery : Option String
  language : Option String
deriving DecidableEq

def defaultPlan : Plan := { intent := "general", assetQuery := none, language := none }

/-- `" ".join(s.split())`. -/
def normalizeWS (s : String) : String :=
  joinWith ' '
    (((splitSegP (fun c => c.isWhitespace) s.data).map String.mk).filter
      (fun t => t ≠ ""))

/-- left-to-right non-overlapping substring replacement on character lists;
the fuel is the input length (each step consumes at least one character for
a non-empty needle). -/
def replaceFuel (needle repl : List Char) : Nat → List Char → List Char
  | 0, l => l
  | fuel + 1, l =>
    match l with
    | [] => []
    | c :: t =>
      if needle.isPrefixOf (c :: t) then
        repl ++ replaceFuel needle repl fuel ((c :: t).drop needle.length)
      else c :: replaceFuel needle repl fuel t

/-- Python `str.replace` for a non-empty pattern; the empty pattern never
occurs in this code base. -/
def strReplace (s pat repl : String) : String :=
  if pat = "" then s
  else String.mk (replaceFuel pat.data repl.data s.data.length s.data)

/-- deterministic cleanup of the planner's asset query: substring removal of
generic qualifier words in source order, then whitespace normalization. -/
def stripGenericWords (aq : String) : Option String :=
  let lowered := pyLower aq
  let lowered := strReplace lowered " coin" ""
  let lowered := strReplace lowered " token" ""
  let lowered := strReplace lowered " crypto" ""
  let lowered := strReplace lowered " cryptocurrency" ""
  let aq := pyStrip (normalizeWS lowered)
  if aq = "" then none else some aq

/-- field validation and cleanup of a parsed planner reply. -/
def planFromObj (obj : PlanObj) : Plan :=
  let intent0 := pyLower (if pyTruthy obj.intent then obj.intent.getD "" else "general")
  let intent := if intent0 = "crypto" || intent0 = "general" then intent0 else "general"
  let aq0 : Option String :=
    match obj.assetQuery with
    | some s => if pyStrip s = "" then none else some (pyStrip s)
    | none => none
  let aq1 : Option String :=
    match aq0 with
    | some s => if 60 < s.length then some (pySlice 60 s) else some s
    | none => none
  let aq2 : Option String :=
    match aq1 with
    | some s => stripGenericWords s
    | none => none
  let language : Option String :=
    match obj.language with
    | some s =>
      let l := pyLower (pyStrip s)
      if l = "it" || l = "en" then some l else none
    | none => none
  { intent := intent, assetQuery := aq2, language := language }

/-- `planner.plan_query`.  With no LLM it degrades to the safe default; a
parse failure is caught; an exception from `llm.chat` itself propagates. -/
def planQuery (chatResult : Option (Except Unit (Option PlanObj))) : Except Unit Plan :=
  match chatResult with
  | none => .ok defaultPlan
  | some (.error e) => .error e
  | some (.ok none) => .ok defaultPlan
  | some (.ok (some obj)) => .ok (planFromObj obj)

/-! ### Orchestrator (`agent/orchestrator.py`) -/

/-- the completion capability for one run: the configured model name and the
per-call-site oracle outcomes (`planChat` for the planner's `llm.chat`,
`sumChat1`/`sumChat2` for the two `maybe_summarize` calls, `streamDeltas`
the fragments `chat_stream` yields before either finishing or — when
`streamFails` — raising). -/
structure LLMOracle where
  model : String
  planChat : Except Unit (Option PlanObj)
  sumChat1 : Except Unit String
  sumChat2 : Except Unit String
  streamDeltas : List String
  streamFails : Bool
deriving DecidableEq

/-- caller-supplied disambiguation selection object. -/
structure Selection where
  kind : Option String
  id : Option String
deriving DecidableEq

/-- the orchestrator's `token_profile` variable. -/
inductive ProfileSlot where
  | emptyP
  | fetched (p : TokenProfile)
  | fromPool (name : Option String) (symbol : String) (imageUrl : Option String)
      (geckoterminalUrl : Option String) (sources : List SourceRef)
  | failed (symbol : String) (errMsg : String)
deriving DecidableEq

/-- the orchestrator's `market` variable. -/
inductive MarketSlot where
  | emptyM
  | fromPool (symbol : String) (lastPriceUsd : Option Rat) (pool : PoolResult)
  | fetched (m : MarketData)
  | failed (symbol : String) (errMsg : String) (errorKind : String)
      (retryAfterS : Option Int) (statusCode : Option Nat)
deriving DecidableEq

/-- `market.get("dex_pool")` truthiness. -/
def MarketSlot.hasDexPool : MarketSlot → Bool
  | .fromPool _ _ _ => true
  | _ => false

/-- the orchestrator's `news` variable. -/
inductive NewsSlot where
  | emptyN
  | fetched (n : NewsResult)
  | failed (symbol : String) (errMsg : String)
deriving DecidableEq

/-- the `final` event's payload (JSON-shaped in the source; `generated_at`
is wall-clock output and is not modelled). -/
structure FinalPayload where
  query : String
  sessionId : Option String
  language : Option String
  isCrypto : Bool
  cryptoIntent : Bool
  unresolvedAsset : Bool
  assetQuery : Option String
  symbol : String
  answer : String
  tokenProfile : Option ProfileSlot
  technicals : MarketSlot
  news : NewsSlot
  sources : List SourceRef
  geckoterminalCandidates : List GTItem
  memoryStats : Option MemStats
  steps : List (String × Bool)
  framework : String
deriving DecidableEq

/-- the tagged union emitted on the stream.  `step`/`tool` payload extras
beyond the claim-relevant fields (latencies, per-step extras, the full
context payload) are elided. -/
inductive Event where
  | step (name : String) (ok : Bool)
  | trace (phase message : String)
  | toolEv (name : String) (inputId : Option String) (ok : Bool) (note : Option String)
  | observation (kind summary : String)
  | context
  | memoryEv (sessionId : Option String) (stats : MemStats)
  | answerDelta (delta : String)
  | final (p : FinalPayload)
deriving DecidableEq

def Event.isFinal : Event → Bool
  | .final _ => true
  | _ => false

/-- the `steps` records accumulated by the `step()` helper, recovered from
the emitted step events. -/
def stepsOf (events : List Event) : List (String × Bool) :=
  events.filterMap (fun e => match e with
    | .step n ok => some (n, ok)
    | _ => none)

/-- `_compact_markdown`'s newline collapsing (`while "\n\n\n" in text`),
with a fuel bound (each rewrite strictly shrinks the string). -/
def collapseNewlines : Nat → String → String
  | 0, s => s
  | fuel + 1, s =>
    if strHas "\n\n\n" s then collapseNewlines fuel (strReplace s "\n\n\n" "\n\n")
    else s

/-- `orchestrator._compact_markdown`. -/
def compactMarkdown (s : String) : String :=
  let s := strReplace s "\r\n" "\n"
  pyStrip (collapseNewlines s.length s)

/-- output of the selection fast-path. -/
structure SelOut where
  events : List Event
  symbol : Option String
  profile : ProfileSlot
  market : MarketSlot
  cryptoIntent : Bool
  sources : List SourceRef
  ts : ToolsState
deriving DecidableEq

/-- the `---- Selection flow (DEX pool) ----` block. -/
def selectionPhase (o : HttpOracle) (ttl : Nat) (selection : Option Selection)
    (ts : ToolsState) : SelOut :=
  match selection with
  | some sel =>
    if sel.kind = some "geckoterminal_pool" then
      let poolId := pyStrip (optStr sel.id)
      if poolId ≠ "" then
        let ev0 : List Event :=
          [.step "apply_selection" true,
           .trace "tools" "Fetching selected pool from GeckoTerminal."]
        match getGeckoterminalPool o ttl poolId ts with
        | (.ok pool, ts) =>
          let symbol := pyUpper (if pyTruthy pool.baseToken.symbol
            then pool.baseToken.symbol.getD "" else "DEX")
          { events := ev0 ++
              [.toolEv "get_geckoterminal_pool" (some poolId) true none,
               .observation "token_profile"
                 ("Loaded DEX token profile for " ++ symbol ++ "."),
               .observation "technicals"
                 "Loaded DEX pool stats (price/liquidity/volume). RSI/MACD not available for DEX-only analysis."],
            symbol := some symbol,
            profile := .fromPool pool.baseToken.name symbol pool.baseToken.imageUrl
              (some pool.poolUrl) pool.sources,
            market := .fromPool symbol pool.priceUsd pool,
            cryptoIntent := true,
            sources := pool.sources, ts := ts }
        | (.error e, ts) =>
          { events := ev0 ++
              [.toolEv "get_geckoterminal_pool" (some poolId) false
                 (some (toolErrMsg e))],
            symbol := none, profile := .emptyP, market := .emptyM,
            cryptoIntent := false, sources := [], ts := ts }
      else
        { events := [], symbol := none, profile := .emptyP, market := .emptyM,
          cryptoIntent := false, sources := [], ts := ts }
    else
      { events := [], symbol := none, profile := .emptyP, market := .emptyM,
        cryptoIntent := false, sources := [], ts := ts }
  | none =>
    { events := [], symbol := none, profile := .emptyP, market := .emptyM,
      cryptoIntent := false, sources := [], ts := ts }

/-- output of the CoinGecko data-acquisition phase. -/
structure DataOut where
  events : List Event
  profile : ProfileSlot
  market : MarketSlot
  news : NewsSlot
  sources : List SourceRef
  ts : ToolsState
deriving DecidableEq

/-- the profile/market/news fetch sequence (each failure degrades to a
placeholder slot; the classification of market errors distinguishes a
directly raised `HttpGetError` with status 429). -/
def dataPhase (o : HttpOracle) (ttl : Nat) (apiKey : String) (wantEstimate : Bool)
    (symbol : String) (sources : List SourceRef) (ts : ToolsState) : DataOut :=
  -- token profile
  let ev0 : List Event := [.trace "tools" "Fetching token profile from CoinGecko."]
  let profRes := getTokenProfile o ttl symbol ts
  let profOut : List Event × ProfileSlot × List SourceRef × ToolsState :=
    match profRes with
    | (.ok tp, ts) =>
      (ev0 ++ [.toolEv "get_token_profile" (some symbol) true none,
               .observation "token_profile" ("Loaded token profile for " ++ symbol ++ ".")],
       ProfileSlot.fetched tp, sources ++ tp.sources, ts)
    | (.error e, ts) =>
      (ev0 ++ [.toolEv "get_token_profile" (some symbol) false (some (toolErrMsg e))],
       ProfileSlot.failed symbol (toolErrMsg e), sources, ts)
  -- market data
  let ev1 := profOut.1 ++ [.trace "tools" "Fetching 30-day market data and computing RSI/MACD."]
  let marketRes := getMarketData o ttl symbol profOut.2.2.2
  let marketOut : List Event × MarketSlot × List SourceRef × ToolsState :=
    match marketRes with
    | (.ok m, ts) =>
      (ev1 ++ [.toolEv "get_market_data" (some symbol) true none,
               .observation "technicals" ("Computed RSI/MACD for " ++ symbol ++ ".")],
       MarketSlot.fetched m, profOut.2.2.1 ++ m.sources, ts)
    | (.error e, ts) =>
      let cls : String × Option Int × Option Nat :=
        match e with
        | .httpGet info =>
          if info.statusCode = 429 then
            ("rate_limited",
             some ((info.retryAfterS).getD 30), some info.statusCode)
          else ("upstream_error", info.retryAfterS, some info.statusCode)
        | _ => ("upstream_error", none, none)
      (ev1 ++ [.toolEv "get_market_data" (some symbol) false (some (toolErrMsg e)),
               .observation "technicals"
                 ("Market data unavailable for " ++ symbol ++ " (CoinGecko error).")],
       MarketSlot.failed symbol (toolErrMsg e) cls.1 cls.2.1 cls.2.2,
       profOut.2.2.1, ts)
  -- news
  let ev2 := marketOut.1 ++ [.trace "tools" "Fetching latest news from CryptoPanic."]
  let newsRes := getLatestNews o ttl apiKey wantEstimate symbol marketOut.2.2.2
  match newsRes with
  | (.ok n, ts) =>
    { events := ev2 ++
        [.toolEv "get_latest_news" (some symbol) true none,
         .observation "news"
           ("Retrieved " ++ toString n.items.length ++ " headlines.")],
      profile := profOut.2.1, market := marketOut.2.1, news := .fetched n,
      sources := marketOut.2.2.1 ++ n.sources, ts := ts }
  | (.error e, ts) =>
    { events := ev2 ++
        [.toolEv "get_latest_news" (some symbol) false (some (toolErrMsg e))],
      profile := profOut.2.1, market := marketOut.2.1,
      news := .failed symbol (toolErrMsg e),
      sources := marketOut.2.2.1, ts := ts }

/-- output of the unresolved-asset GeckoTerminal fallback. -/
structure GTOut where
  events : List Event
  candidates : List GTItem
  sources : List SourceRef
  ts : ToolsState
deriving DecidableEq

/-- the `---- Unresolved asset: GeckoTerminal candidates ----` block. -/
def gtPhase (o : HttpOracle) (sim : String → String → Rat) (ttl : Nat)
    (assetQuery : String) (sources : List SourceRef) (ts : ToolsState) : GTOut :=
  let ev0 : List Event :=
    [.trace "tools" "Searching GeckoTerminal pools for possible matches."]
  match searchGeckoterminalPools o sim ttl assetQuery 8 ts with
  | (.ok res, ts) =>
    { events := ev0 ++
        [.toolEv "search_geckoterminal_pools" (some assetQuery) true none] ++
        (if res.items ≠ [] then
          [.observation "geckoterminal_candidates"
            ("Found " ++ toString res.items.length ++
              " candidate pools on GeckoTerminal.")]
         else []),
      candidates := res.items, sources := sources ++ res.sources, ts := ts }
  | (.error e, ts) =>
    { events := ev0 ++
        [.toolEv "search_geckoterminal_pools" (some assetQuery) false
           (some (toolErrMsg e))],
      candidates := [], sources := sources, ts := ts }

/-- the synthesis phase: context event, streamed fragments, and the final
answer text (`framework` flags a mid-stream failure). -/
def synthesisPhase (llm : Option LLMOracle) : List Event × String × String :=
  match llm with
  | none => ([], "LLM not configured.", "no_llm")
  | some l =>
    let ev0 : List Event :=
      [.step "llm_synthesis_start" true,
       .trace "synthesis" "Writing the final answer using tool observations.",
       .context] ++ l.streamDeltas.map Event.answerDelta
    if l.streamFails then
      (ev0, compactMarkdown "Sorry—there was an LLM error. Please retry.", "llm_error")
    else
      let parts := l.streamDeltas
      let answer :=
        if parts ≠ [] then compactMarkdown (String.join parts) else "LLM not configured."
      (ev0 ++ [.step "llm_synthesis_done" true], answer, "openai_stream")

/-- result of one research run: the emitted events, whether the generator
terminated by an uncaught exception (in which case the events are those
yielded before the raise and no `final` event exists), and the post-run
shared state. -/
structure RunResult where
  events : List Event
  crashed : Bool
  ts : ToolsState
  sessions : List (String × SessionMemory)
deriving DecidableEq

/-- `ResearchOrchestrator.stream`.  All effects are oracles: `o` the HTTP
endpoints, `sim` the string-similarity ratio, `llm` the completion
capability, `cacheTtl`/`apiKey`/`wantEstimate` the environment, `now` the
clock, `sessions`/`ts` the shared mutable state. -/
def ResearchOrchestrator.stream (mem : MemoryStore) (llm : Option LLMOracle)
    (o : HttpOracle) (sim : String → String → Rat) (cacheTtl : Nat)
    (apiKey : String) (wantEstimate : Bool) (now : Nat)
    (sessions : List (String × SessionMemory)) (query : String)
    (sessionId : Option String) (selection : Option Selection)
    (ts : ToolsState) : RunResult :=
  let ev0 : List Event :=
    [.step "received_query" true,
     .trace "plan" "Planning the next actions (tools vs normal answer)."]
  -- session load, user-turn append, first summarization
  let got := MemoryStore.get mem sessions sessionId now
  let memOut : List Event × Option SessionMemory × Option MemStats ×
      List (String × SessionMemory) :=
    match got.1 with
    | some sess =>
      let sess := MemoryStore.append mem sess "user" query
      let sm := MemoryStore.maybeSummarize mem sess (llm.map (fun l => l.sumChat1))
      ([.memoryEv sessionId sm.2], some sm.1, some sm.2, putSession got.2 sm.1)
    | none => ([], none, none, got.2)
  let ev1 := ev0 ++ memOut.1
  let sess0 := memOut.2.1
  let memStats1 := memOut.2.2.1
  let sessions := memOut.2.2.2
  -- selection fast-path
  let sel := selectionPhase o cacheTtl selection ts
  let ev2 := ev1 ++ sel.events
  -- planning (an exception from llm.chat propagates out of the generator)
  match planQuery (llm.map (fun l => l.planChat)) with
  | .error _ =>
    { events := ev2, crashed := true, ts := sel.ts, sessions := sessions }
  | .ok plan =>
    let lang := if pyTruthy plan.language then plan.language else none
    let cryptoIntent :=
      if sel.cryptoIntent then true else plan.intent = "crypto"
    let assetQuery := plan.assetQuery
    let ev3 := ev2 ++ [.step "plan_done" true]
    -- asset resolution
    let res : List Event × Option String × Bool × ToolsState :=
      if cryptoIntent ∧ sel.symbol = none then
        if !pyTruthy assetQuery then ([], sel.symbol, true, sel.ts)
        else
          match resolveCoingeckoIdFromQuery o (assetQuery.getD "") sel.ts with
          | (.ok resolved, ts) =>
            let symbol :=
              pyUpper (if pyTruthy resolved.symbol then resolved.symbol.getD "" else "N/A")
            ([.step "resolve_asset" true], some symbol, false, ts)
          | (.error _, ts) => ([.step "resolve_asset" false], sel.symbol, true, ts)
      else ([], sel.symbol, false, sel.ts)
    let ev4 := ev3 ++ res.1
    let symbol := res.2.1
    let unresolvedAsset := res.2.2.1
    let isCrypto :=
      (cryptoIntent && pyTruthy symbol && !unresolvedAsset) || sel.market.hasDexPool
    -- data acquisition
    let dat : DataOut :=
      if isCrypto && pyTruthy symbol && !sel.market.hasDexPool then
        dataPhase o cacheTtl apiKey wantEstimate (symbol.getD "") sel.sources res.2.2.2
      else
        { events := [], profile := sel.profile, market := sel.market,
          news := .emptyN, sources := sel.sources, ts := res.2.2.2 }
    let ev5 := ev4 ++ dat.events
    -- unresolved-asset fallback
    let gt : GTOut :=
      if cryptoIntent && unresolvedAsset && pyTruthy assetQuery then
        gtPhase o sim cacheTtl (assetQuery.getD "") dat.sources dat.ts
      else
        { events := [], candidates := [], sources := dat.sources, ts := dat.ts }
    let ev6 := ev5 ++ gt.events
    -- synthesis
    let syn := synthesisPhase llm
    let ev7 := ev6 ++ syn.1
    let answer := syn.2.1
    let framework := syn.2.2
    -- assistant-turn append, second summarization
    let memOut2 : List Event × Option MemStats × List (String × SessionMemory) :=
      match sess0 with
      | some sess =>
        let sess := MemoryStore.append mem sess "assistant" answer
        let sess :=
          if isCrypto && pyTruthy symbol then { sess with lastCryptoSymbol := symbol }
          else sess
        let sm := MemoryStore.maybeSummarize mem sess (llm.map (fun l => l.sumChat2))
        ([.memoryEv sessionId sm.2], some sm.2, putSession sessions sm.1)
      | none => ([], none, sessions)
    let ev8 := ev7 ++ memOut2.1
    let sessions := memOut2.2.2
    let finalPayload : FinalPayload :=
      { query := query, sessionId := sessionId, language := lang,
        isCrypto := isCrypto, cryptoIntent := cryptoIntent,
        unresolvedAsset := unresolvedAsset, assetQuery := assetQuery,
        symbol :=
          (match symbol with
           | some s => if s ≠ "" then s else (if !isCrypto then "GENERAL" else "N/A")
           | none => if !isCrypto then "GENERAL" else "N/A"),
        answer := answer,
        tokenProfile := if isCrypto then some dat.profile else none,
        technicals := if isCrypto then dat.market else .emptyM,
        news := if isCrypto then dat.news else .emptyN,
        sources := if isCrypto then gt.sources else [],
        geckoterminalCandidates := gt.candidates,
        memoryStats := match memOut2.2.1 with
          | some s => some s
          | none => memStats1,
        steps := stepsOf ev8 ++ [("done", true)],
        framework := framework }
    { events := ev8 ++ [.final finalPayload], crashed := false,
      ts := gt.ts, sessions := sessions }

/-! ### Concrete instances used by counterexamples and witnesses -/

/-- strictly increasing 26-point price series: one large jump followed by
tiny increments (momentum deceleration). -/
def macdCex : List Rat :=
  [0, 10000, 10001, 10002, 10003, 10004, 10005, 10006, 10007, 10008, 10009,
   10010, 10011, 10012, 10013, 10014, 10015, 10016, 10017, 10018, 10019,
   10020, 10021, 10022, 10023, 10024]

/-- its negation: a strictly decreasing series. -/
def macdCexNeg : List Rat :=
  [0, -10000, -10001, -10002, -10003, -10004, -10005, -10006, -10007, -10008,
   -10009, -10010, -10011, -10012, -10013, -10014, -10015, -10016, -10017,
   -10018, -10019, -10020, -10021, -10022, -10023, -10024]

/-- store with an aggressive summarization trigger. -/
def trigStore : MemoryStore :=
  { ttlSeconds := 7200, keepLastTurns := 6, pendingTrigger := 1,
    maxChars := 9000, summaryTargetChars := 900 }

/-- store whose summary character budget is zero. -/
def zeroBudgetStore : MemoryStore :=
  { ttlSeconds := 7200, keepLastTurns := 6, pendingTrigger := 1,
    maxChars := 9000, summaryTargetChars := 0 }

/-- session with one pending turn carrying a market-data dump. -/
def ethSession : SessionMemory :=
  { sessionId := "s1", summary := "",
    turns := [],
    pending := [{ role := "user", content := "ETH price is $3482.12 right now, 6 digits" }],
    lastCryptoSymbol := none, lastSeen := 0 }

/-- an LLM summary that leaks the market-data line between two clean bullets. -/
def leakyLLM : Option (Except Unit String) :=
  some (Except.ok
    ("• user is researching ETH\n" ++
     "ETH price is $3482.12 right now, 6 digits\n" ++
     "• prefers concise answers"))

/-- trivial similarity oracle (always 0, inside [0,1]). -/
def simZero : String → String → Rat := fun _ _ => 0

/-- pool row whose base-token symbol matches the query token "pepe". -/
def gtRowA : GTRow :=
  { poolId := some "solana_PoolAAAA", poolName := some "PEPE / SOL",
    attrsAddress := some "PoolAAAA", reserveInUsd := some 120,
    baseTokenPriceUsd := some 1, priceChangeH24 := none,
    dexId := some "raydium", dexName := some "Raydium",
    baseName := some "Pepe", baseSym := some "PEPE",
    baseAddress := some "AAA", baseImageUrl := none,
    quoteName := some "Solana", quoteSym := some "SOL",
    quoteAddress := some "BBB", quoteImageUrl := none }

/-- pool row whose joined text contains no query token, with huge liquidity. -/
def gtRowB : GTRow :=
  { poolId := some "solana_PoolBBBB", poolName := some "Dogwifhat / SOL",
    attrsAddress := some "PoolBBBB", reserveInUsd := some 99999999,
    baseTokenPriceUsd := some 2, priceChangeH24 := none,
    dexId := some "orca", dexName := some "Orca",
    baseName := some "Dogwifhat", baseSym := some "WIF",
    baseAddress := some "CCC", baseImageUrl := none,
    quoteName := some "Solana", quoteSym := some "SOL",
    quoteAddress := some "DDD", quoteImageUrl := none }

/-- shape every `get_latest_news` result value satisfies: at most 7 items,
all with non-empty titles, decomposed as at most 5 base items plus at most 2
high-signal extras. -/
def newsOK (n : NewsResult) : Prop :=
  n.items.length ≤ 7 ∧
  (∀ it ∈ n.items, it.title ≠ "") ∧
  ∃ base extra, n.items = base ++ extra ∧ base.length ≤ 5 ∧ extra.length ≤ 2 ∧
    ∀ it ∈ extra, it.sentiment = "bullish" ∨ it.sentiment = "bearish"

/-- `newsOK` on the value of a non-failing call. -/
def newsResultOK : Except ToolErr NewsResult → Prop
  | .ok v => newsOK v
  | .error _ => True

/-- CryptoPanic rows used by concrete runs. -/
def newsRow1 : NewsRow :=
  { title := some "ETH rallies after approval", originalUrl := some "https://a.example/x",
    cpUrl := none, postId := some 11, slug := some "eth-rallies",
    sourceDomain := some "a.example", publishedAt := some "2026-10-01T00:00:00Z",
    createdAt := none, votesBullish := some 3, votesBearish := some 1,
    description := some "flows" }

def newsRow2 : NewsRow :=
  { title := some "Exchange hack drains funds", originalUrl := none,
    cpUrl := some "https://cryptopanic.com/news/p2", postId := some 12,
    slug := some "hack", sourceDomain := none,
    publishedAt := some "2026-10-02T00:00:00Z", createdAt := none,
    votesBullish := none, votesBearish := none, description := none }

/-- oracle for the end-to-end "Should I buy ETH?" scenario: the CoinGecko
search knows ethereum, the chart has two points, the profile and news
endpoints succeed, GeckoTerminal is irrelevant. -/
def ethOracle : HttpOracle :=
  { search := fun _ => .ok
      [{ id := some "ethereum", name := some "Ethereum", symbol := some "eth",
         marketCapRank := some 2 }],
    marketChart := fun _ => .ok [(1, 100), (2, 101)],
    coinProfile := fun _ => .ok
      { name := some "Ethereum", imageLarge := some "https://img.example/eth.png",
        imageSmall := none, imageThumb := none,
        homepageFirst := some "https://ethereum.org" },
    newsPosts := fun _ => .ok [newsRow1, newsRow2],
    gtSearch := fun _ => .ok [],
    gtPool := fun _ _ => .error (.valueErr "no pool") }


/-- completion capability whose planner-side `chat` call raises. -/
def crashLLM : LLMOracle :=
  { model := "gpt-x", planChat := .error (), sumChat1 := .ok "",
    sumChat2 := .ok "", streamDeltas := [], streamFails := false }

/-- the planner reply for the ETH scenario. -/
def ethPlanObj : PlanObj :=
  { intent := some "crypto", assetQuery := some "eth", language := some "en" }

/-- completion capability whose planner answers the ETH scenario. -/
def ethPlanLLM : LLMOracle :=
  { model := "gpt-x", planChat := .ok (some ethPlanObj),
    sumChat1 := .ok "", sumChat2 := .ok "",
    streamDeltas := ["Looks fine."], streamFails := false }

/-- the end-to-end "Should I buy ETH?" run: no session id, no selection,
fresh shared state, CryptoPanic key present. -/
def ethRun : RunResult :=
  ResearchOrchestrator.stream trigStore (some ethPlanLLM) ethOracle simZero 300
    "k" false 0 [] "Should I buy ETH?" none none (ToolsState.fresh 0)

/-- the payload of the run's last event when that event is `final`. -/
def finalOf (r : RunResult) : Option FinalPayload :=
  match r.events.getLast? with
  | some (.final p) => some p
  | _ => none

/-! ### Theorems -/

theorem spillOld_append (keep : Nat) (pending turns : List Turn) :
    (spillOld keep pending turns).1 ++ (spillOld keep pending turns).2 =
      pending ++ turns := by
  induction turns generalizing pending with
  | nil => simp [spillOld]
  | cons t rest ih =>
    rw [spillOld]
    split
    · simpa using ih (pending ++ [t])
    · simp

theorem spillOld_length (keep : Nat) (pending turns : List Turn) :
    (spillOld keep pending turns).2.length ≤ keep := by
  induction turns generalizing pending with
  | nil =>
    rw [spillOld]
    split
    · simp_all
    · simp_all
  | cons t rest ih =>
    rw [spillOld]
    split
    · exact ih (pending ++ [t])
    · simp_all

theorem append_turns_le (st : MemoryStore) (s : SessionMemory) (r c : String) :
    (MemoryStore.append st s r c).turns.length ≤ st.keepLastTurns :=
  spillOld_length _ _ _

theorem append_conservation (st : MemoryStore) (s : SessionMemory) (r c : String) :
    (MemoryStore.append st s r c).pending ++ (MemoryStore.append st s r c).turns =
      s.pending ++ s.turns ++ [⟨r, c⟩] := by
  simpa [MemoryStore.append] using spillOld_append st.keepLastTurns s.pending (s.turns ++ [⟨r, c⟩])

/-- C3: after any non-empty sequence of `MemoryStore.append` calls the
recent-turns list respects `len(recent turns) ≤ keep_last_turns`, and every
turn the appends removed from the recent list sits in the pending queue:
`pending ++ turns` is exactly the old content plus the appended turns, so
nothing is dropped at this stage. -/
theorem memory_append_cap_and_conservation (st : MemoryStore) (s : SessionMemory)
    (inputs : List (String × String)) (hne : inputs ≠ []) :
    ((inputs.foldl (fun acc rc => MemoryStore.append st acc rc.1 rc.2) s).turns.length
        ≤ st.keepLastTurns) ∧
    (inputs.foldl (fun acc rc => MemoryStore.append st acc rc.1 rc.2) s).pending ++
        (inputs.foldl (fun acc rc => MemoryStore.append st acc rc.1 rc.2) s).turns =
      s.pending ++ s.turns ++ inputs.map (fun rc => (⟨rc.1, rc.2⟩ : Turn)) := by
  constructor
  · obtain ⟨ys, y, rfl⟩ := List.eq_nil_or_concat inputs |>.resolve_left hne
    rw [List.concat_eq_append, List.foldl_append, List.foldl_cons, List.foldl_nil]
    exact append_turns_le st _ y.1 y.2
  · clear hne
    induction inputs generalizing s with
    | nil => simp
    | cons rc rest ih =>
      rw [List.foldl_cons]
      rw [ih (MemoryStore.append st s rc.1 rc.2)]
      rw [append_conservation]
      simp

/-- witness for C3 at a concrete store and input sequence. -/
theorem memory_append_cap_witness :
    (([("user", "a"), ("assistant", "b"), ("user", "c")].foldl
        (fun acc rc => MemoryStore.append
          ⟨7200, 2, 6, 9000, 900⟩ acc rc.1 rc.2) (SessionMemory.fresh "s1" 0)).turns.length
        ≤ 2) ∧
    ([("user", "a"), ("assistant", "b"), ("user", "c")].foldl
        (fun acc rc => MemoryStore.append
          ⟨7200, 2, 6, 9000, 900⟩ acc rc.1 rc.2) (SessionMemory.fresh "s1" 0)).pending ++
      ([("user", "a"), ("assistant", "b"), ("user", "c")].foldl
        (fun acc rc => MemoryStore.append
          ⟨7200, 2, 6, 9000, 900⟩ acc rc.1 rc.2) (SessionMemory.fresh "s1" 0)).turns =
      (SessionMemory.fresh "s1" 0).pending ++ (SessionMemory.fresh "s1" 0).turns ++
        [("user", "a"), ("assistant", "b"), ("user", "c")].map
          (fun rc => (⟨rc.1, rc.2⟩ : Turn)) :=
  memory_append_cap_and_conservation ⟨7200, 2, 6, 9000, 900⟩
    (SessionMemory.fresh "s1" 0) [("user", "a"), ("assistant", "b"), ("user", "c")]
    (by decide)

/-- C2 (code defect): `_http_get_json`'s broad `except Exception` around the
attempt body catches the `raise err` meant to fail non-retryable statuses
immediately, so a permanent 404 is retried like a transient error: three
upstream attempts are made instead of one, and retry exhaustion surfaces a
`RuntimeError` wrapping the typed error rather than the typed error itself.
A permanent 503 does make exactly 3 attempts with the typed error recorded,
as the claim states. -/
theorem httpRetry_404_retried_three_times :
    (httpGetJson (fun _ => .response 404 "Not Found" none true)
        "https://api.coingecko.com/api/v3/search").attempts = 3 ∧
    (httpGetJson (fun _ => .response 404 "Not Found" none true)
        "https://api.coingecko.com/api/v3/search").result =
      .error (some (.httpErr
        ⟨"https://api.coingecko.com/api/v3/search", 404, "Not Found", none⟩)) ∧
    (httpGetJson (fun _ => .response 503 "service unavailable" (some 7) true)
        "https://api.coingecko.com/api/v3/search").attempts = 3 ∧
    (httpGetJson (fun _ => .response 503 "service unavailable" (some 7) true)
        "https://api.coingecko.com/api/v3/search").result =
      .error (some (.httpErr
        ⟨"https://api.coingecko.com/api/v3/search", 503, "service unavailable",
         some 7⟩)) := by
  refine ⟨?_, ?_, ?_, ?_⟩ <;> decide

/-- C5 (counterexample): a strictly increasing 26-point series whose MACD
histogram is negative and whose label is "bearish", and its strictly
decreasing negation whose label is "bullish". -/
theorem macd_monotone_label_counterexample :
    List.Chain' (· < ·) macdCex ∧ macdCex.length = 26 ∧
    (computeRsiMacd macdCex).macd.histogram < 0 ∧
    (computeRsiMacd macdCex).macd.label = "bearish" ∧
    List.Chain' (· > ·) macdCexNeg ∧
    (computeRsiMacd macdCexNeg).macd.label = "bullish" := by
  refine ⟨?_, by decide, ?_, ?_, ?_, ?_⟩
  · norm_num [macdCex, List.chain'_cons]
  · norm_num [computeRsiMacd, macdCex, ewmMean, emaFrom, emaNext]
  · norm_num [computeRsiMacd, macdCex, ewmMean, emaFrom, emaNext]
  · norm_num [macdCexNeg, List.chain'_cons]
  · norm_num [computeRsiMacd, macdCexNeg, ewmMean, emaFrom, emaNext]

theorem zip_emaFrom_getLast (a b : Rat) (rest : List Rat) : ∀ (y1 y2 : Rat),
    (((List.zipWith (fun p q => p - q) (y1 :: emaFrom a y1 rest)
        (y2 :: emaFrom b y2 rest)).getLast?).getD 0) =
      rest.foldl (fun acc z => emaNext a acc z) y1
        - rest.foldl (fun acc z => emaNext b acc z) y2 := by
  induction rest with
  | nil => intro y1 y2; simp [emaFrom]
  | cons z t ih =>
    intro y1 y2
    simpa [emaFrom, List.getLast?_cons_cons] using ih (emaNext a y1 z) (emaNext b y2 z)

theorem macd_line_eq (x : Rat) (rest : List Rat) :
    (computeRsiMacd (x :: rest)).macd.line =
      rest.foldl (fun acc z => emaNext ((2 : Rat) / 13) acc z) x
        - rest.foldl (fun acc z => emaNext ((2 : Rat) / 27) acc z) x := by
  have h := zip_emaFrom_getLast ((2 : Rat) / 13) ((2 : Rat) / 27) rest x x
  simp only [computeRsiMacd, ewmMean]
  norm_num at h ⊢
  exact h

theorem emaFoldl_mono (a b : Rat) (_hb : 0 ≤ b) (hba : b ≤ a) (ha : a ≤ 1) :
    ∀ (xs : List Rat) (prev y1 y2 : Rat), y2 ≤ y1 → y2 ≤ prev →
      List.Chain' (· ≤ ·) (prev :: xs) →
      xs.foldl (fun acc z => emaNext b acc z) y2
          ≤ xs.foldl (fun acc z => emaNext a acc z) y1
        ∧ xs.foldl (fun acc z => emaNext b acc z) y2
          ≤ ((prev :: xs).getLast?).getD 0 := by
  intro xs
  induction xs with
  | nil =>
    intro prev y1 y2 h21 h2p _
    exact ⟨h21, by simpa using h2p⟩
  | cons z t ih =>
    intro prev y1 y2 h21 h2p hch
    have hpz : prev ≤ z := (List.chain'_cons.1 hch).1
    have hch2 : List.Chain' (· ≤ ·) (z :: t) := (List.chain'_cons.1 hch).2
    have h2z : y2 ≤ z := le_trans h2p hpz
    have step21 : emaNext b y2 z ≤ emaNext a y1 z := by
      simp only [emaNext]
      nlinarith [mul_nonneg (sub_nonneg.2 hba) (sub_nonneg.2 h2z),
        mul_nonneg (sub_nonneg.2 (le_trans hba ha)) (sub_nonneg.2 h21)]
    have step2z : emaNext b y2 z ≤ z := by
      simp only [emaNext]
      nlinarith [mul_nonneg (sub_nonneg.2 (le_trans hba ha)) (sub_nonneg.2 h2z)]
    have := ih z (emaNext a y1 z) (emaNext b y2 z) step21 step2z hch2
    simpa [List.getLast?_cons_cons] using this

theorem emaFoldl_neg (a y : Rat) (xs : List Rat) :
    (xs.map (fun v => -v)).foldl (fun acc z => emaNext a acc z) (-y) =
      -(xs.foldl (fun acc z => emaNext a acc z) y) := by
  induction xs generalizing y with
  | nil => simp
  | cons z t ih =>
    simp only [List.map_cons, List.foldl_cons]
    rw [show emaNext a (-y) (-z) = -(emaNext a y z) by simp [emaNext]; ring]
    exact ih (emaNext a y z)

/-- C5 (amended): for a monotonically non-decreasing series the MACD line
(EMA12 − EMA26) is non-negative, for a non-increasing series it is
non-positive, and the label is "bullish" exactly when the histogram
(MACD − signal) is non-negative.  The histogram itself — and hence the
label — can have either sign on a strictly monotone series (see the
counterexample), because the signal line lags a decelerating MACD. -/
theorem macd_line_sign_monotone (xs : List Rat) (hlen : 26 ≤ xs.length) :
    (List.Chain' (· ≤ ·) xs → 0 ≤ (computeRsiMacd xs).macd.line) ∧
    (List.Chain' (fun p q => q ≤ p) xs → (computeRsiMacd xs).macd.line ≤ 0) ∧
    ((computeRsiMacd xs).macd.label = "bullish" ↔
      0 ≤ (computeRsiMacd xs).macd.histogram) := by
  match xs, hlen with
  | x :: rest, _ =>
    refine ⟨?_, ?_, ?_⟩
    · intro hch
      rw [macd_line_eq]
      have h := emaFoldl_mono ((2 : Rat) / 13) ((2 : Rat) / 27)
        (by norm_num) (by norm_num) (by norm_num) rest x x x le_rfl le_rfl hch
      linarith [h.1]
    · intro hch
      rw [macd_line_eq]
      have hchn : List.Chain' (· ≤ ·) ((-x) :: rest.map (fun v => -v)) := by
        have : List.Chain' (· ≤ ·) ((x :: rest).map (fun v => -v)) := by
          rw [List.chain'_map]
          exact hch.imp (fun a b h => neg_le_neg h)
        simpa using this
      have h := emaFoldl_mono ((2 : Rat) / 13) ((2 : Rat) / 27)
        (by norm_num) (by norm_num) (by norm_num) (rest.map (fun v => -v))
        (-x) (-x) (-x) le_rfl le_rfl hchn
      have h1 := h.1
      rw [emaFoldl_neg, emaFoldl_neg] at h1
      linarith
    · simp only [computeRsiMacd]
      split <;> simp_all

/-- witness for the amended C5 at a concrete non-decreasing 26-point series. -/
theorem macd_line_sign_monotone_witness :
    0 ≤ (computeRsiMacd macdCex).macd.line :=
  (macd_line_sign_monotone macdCex (by decide)).1
    (by norm_num [macdCex, List.chain'_cons])

/-! #### Character-list lemmas for the summary post-filter -/

theorem hasSub_iff_infix (n : List Char) : ∀ h : List Char,
    hasSub n h = true ↔ n <:+: h := by
  intro h
  induction h with
  | nil => simp [hasSub, List.infix_nil, List.isEmpty_iff]
  | cons c t ih =>
    simp [hasSub, ih, List.isPrefixOf_iff_prefix, List.infix_cons_iff]

theorem strHas_iff_infixOf (n s : String) : strHas n s = true ↔ n.data <:+: s.data :=
  hasSub_iff_infix n.data s.data

theorem splitSegP_ne_nil (p : Char → Bool) (cs : List Char) : splitSegP p cs ≠ [] := by
  induction cs with
  | nil => simp [splitSegP]
  | cons x t ih =>
    rw [splitSegP]
    split
    · simp
    · obtain ⟨s, rest, hsr⟩ := List.exists_cons_of_ne_nil ih
      rw [hsr]
      simp

theorem splitSegP_head_cons (p : Char → Bool) (x : Char) (t : List Char)
    (hx : p x = false) (s : List Char) (rest : List (List Char))
    (h : splitSegP p t = s :: rest) :
    splitSegP p (x :: t) = (x :: s) :: rest := by
  rw [splitSegP, h]
  simp [hx]

theorem splitSegP_cons_sep (p : Char → Bool) (x : Char) (t : List Char)
    (hx : p x = true) : splitSegP p (x :: t) = [] :: splitSegP p t := by
  rw [splitSegP]
  simp [hx]

theorem mem_splitSegP_not (p : Char → Bool) : ∀ (cs seg : List Char),
    seg ∈ splitSegP p cs → ∀ a ∈ seg, p a = false := by
  intro cs
  induction cs with
  | nil => intro seg hseg a ha; simp [splitSegP] at hseg; subst hseg; simp at ha
  | cons x t ih =>
    intro seg hseg a ha
    by_cases hx : p x = true
    · rw [splitSegP_cons_sep p x t hx] at hseg
      rcases List.mem_cons.1 hseg with h | h
      · simp_all
      · exact ih seg h a ha
    · obtain ⟨s, rest, hsr⟩ := List.exists_cons_of_ne_nil (splitSegP_ne_nil p t)
      rw [splitSegP_head_cons p x t (by simpa using hx) s rest hsr] at hseg
      rcases List.mem_cons.1 hseg with h | h
      · subst h
        rcases List.mem_cons.1 ha with rfl | ha'
        · simpa using hx
        · exact ih s (by rw [hsr]; exact List.mem_cons_self _ _) a ha'
      · exact ih seg (by rw [hsr]; exact List.mem_cons_of_mem _ h) a ha

theorem splitSegP_head_prefix (p : Char → Bool) : ∀ (cs s : List Char)
    (rest : List (List Char)), splitSegP p cs = s :: rest → s <+: cs := by
  intro cs
  induction cs with
  | nil =>
    intro s rest h
    simp [splitSegP] at h
    rw [← h.1]
  | cons x t ih =>
    intro s rest h
    by_cases hx : p x = true
    · rw [splitSegP_cons_sep p x t hx] at h
      obtain ⟨h1, h2⟩ := List.cons.inj h
      rw [← h1]
      exact List.nil_prefix
    · obtain ⟨s₀, r₀, hsr⟩ := List.exists_cons_of_ne_nil (splitSegP_ne_nil p t)
      rw [splitSegP_head_cons p x t (by simpa using hx) s₀ r₀ hsr] at h
      obtain ⟨h1, h2⟩ := List.cons.inj h
      obtain ⟨u, hu⟩ := ih s₀ r₀ hsr
      rw [← h1]
      exact ⟨u, by simp [hu]⟩

theorem mem_splitSegP_infixPiece (p : Char → Bool) : ∀ (cs seg : List Char),
    seg ∈ splitSegP p cs → seg <:+: cs := by
  intro cs
  induction cs with
  | nil =>
    intro seg hseg
    simp [splitSegP] at hseg
    simp [hseg]
  | cons x t ih =>
    intro seg hseg
    by_cases hx : p x = true
    · rw [splitSegP_cons_sep p x t hx] at hseg
      rcases List.mem_cons.1 hseg with h | h
      · simp [h]
      · exact List.infix_cons (ih seg h)
    · obtain ⟨s, rest, hsr⟩ := List.exists_cons_of_ne_nil (splitSegP_ne_nil p t)
      rw [splitSegP_head_cons p x t (by simpa using hx) s rest hsr] at hseg
      rcases List.mem_cons.1 hseg with h | h
      · subst h
        obtain ⟨u, hu⟩ := splitSegP_head_prefix p t s rest hsr
        exact List.IsPrefix.isInfix ⟨u, by simp [hu]⟩
      · exact List.infix_cons (ih seg (by rw [hsr]; exact List.mem_cons_of_mem _ h))

theorem prefix_head_splitSegP (p : Char → Bool) : ∀ (u cs s : List Char)
    (rest : List (List Char)), u <+: cs → (∀ a ∈ u, p a = false) →
    splitSegP p cs = s :: rest → u <+: s := by
  intro u
  induction u with
  | nil => intro cs s rest _ _ _; exact List.nil_prefix
  | cons b u' ih =>
    intro cs s rest hpre hfree hsplit
    obtain ⟨w, hw⟩ := hpre
    subst hw
    simp only [List.cons_append] at hsplit
    obtain ⟨s₀, r₀, hsr⟩ := List.exists_cons_of_ne_nil (splitSegP_ne_nil p (u' ++ w))
    rw [splitSegP_head_cons p b (u' ++ w) (hfree b (by simp)) s₀ r₀ hsr] at hsplit
    obtain ⟨h1, _⟩ := List.cons.inj hsplit
    rw [← h1]
    have := ih (u' ++ w) s₀ r₀ ⟨w, rfl⟩ (fun a ha => hfree a (List.mem_cons_of_mem _ ha)) hsr
    obtain ⟨v, hv⟩ := this
    exact ⟨v, by simp [hv]⟩

theorem infix_piece_of_splitSegP (p : Char → Bool) : ∀ (cs seg : List Char),
    (∀ a ∈ seg, p a = false) → seg <:+: cs →
    ∃ piece ∈ splitSegP p cs, seg <:+: piece := by
  intro cs
  induction cs with
  | nil =>
    intro seg _ hinf
    rw [List.infix_nil] at hinf
    subst hinf
    exact ⟨[], by simp [splitSegP], List.nil_infix⟩
  | cons x t ih =>
    intro seg hfree hinf
    rcases List.infix_cons_iff.1 hinf with hpre | hinf'
    · match seg, hfree, hpre with
      | [], _, _ =>
        obtain ⟨s, rest, hsr⟩ := List.exists_cons_of_ne_nil (splitSegP_ne_nil p (x :: t))
        exact ⟨s, by rw [hsr]; exact List.mem_cons_self _ _, List.nil_infix⟩
      | y :: u, hfree, hpre =>
        obtain ⟨w, hw⟩ := hpre
        have hyx : y = x := by
          have := congrArg (fun l => l.head?) hw
          simpa using this
        subst hyx
        have hux : p y = false := hfree y (by simp)
        obtain ⟨s₀, r₀, hsr⟩ := List.exists_cons_of_ne_nil (splitSegP_ne_nil p t)
        have hupre : u <+: t := by
          obtain ⟨h1, h2⟩ := List.cons.inj hw
          exact ⟨w, h2⟩
        have husub := prefix_head_splitSegP p u t s₀ r₀ hupre
          (fun a ha => hfree a (List.mem_cons_of_mem _ ha)) hsr
        refine ⟨y :: s₀, ?_, ?_⟩
        · rw [splitSegP_head_cons p y t hux s₀ r₀ hsr]
          exact List.mem_cons_self _ _
        · obtain ⟨v, hv⟩ := husub
          exact List.IsPrefix.isInfix ⟨v, by simp [hv]⟩
    · obtain ⟨piece, hmem, hseg⟩ := ih seg hfree hinf'
      by_cases hx : p x = true
      · rw [splitSegP_cons_sep p x t hx]
        exact ⟨piece, List.mem_cons_of_mem _ hmem, hseg⟩
      · obtain ⟨s₀, r₀, hsr⟩ := List.exists_cons_of_ne_nil (splitSegP_ne_nil p t)
        rw [splitSegP_head_cons p x t (by simpa using hx) s₀ r₀ hsr]
        rw [hsr] at hmem
        rcases List.mem_cons.1 hmem with h | h
        · subst h
          exact ⟨x :: piece, List.mem_cons_self _ _,
            List.IsInfix.trans hseg (List.infix_cons (List.infix_refl _))⟩
        · exact ⟨piece, List.mem_cons_of_mem _ h, hseg⟩

theorem splitSegP_length (p : Char → Bool) : ∀ cs : List Char,
    (splitSegP p cs).length = cs.countP p + 1 := by
  intro cs
  induction cs with
  | nil => simp [splitSegP]
  | cons x t ih =>
    by_cases hx : p x = true
    · rw [splitSegP_cons_sep p x t hx]
      simp [List.countP_cons, hx, ih]
    · obtain ⟨s₀, r₀, hsr⟩ := List.exists_cons_of_ne_nil (splitSegP_ne_nil p t)
      rw [splitSegP_head_cons p x t (by simpa using hx) s₀ r₀ hsr]
      have := ih
      rw [hsr] at this
      simp only [List.length_cons] at this ⊢
      simp [List.countP_cons, hx]
      omega

theorem splitSegP_of_free (p : Char → Bool) : ∀ x : List Char,
    (∀ a ∈ x, p a = false) → splitSegP p x = [x] := by
  intro x
  induction x with
  | nil => intro _; rfl
  | cons b u ih =>
    intro hfree
    have hb : p b = false := hfree b (by simp)
    have hu := ih (fun a ha => hfree a (List.mem_cons_of_mem _ ha))
    exact splitSegP_head_cons p b u hb u [] hu

theorem splitSegP_append_free (p : Char → Bool) : ∀ (x cs s : List Char)
    (rest : List (List Char)), (∀ a ∈ x, p a = false) →
    splitSegP p cs = s :: rest → splitSegP p (x ++ cs) = (x ++ s) :: rest := by
  intro x
  induction x with
  | nil => intro cs s rest _ h; simpa using h
  | cons b u ih =>
    intro cs s rest hfree h
    have hb : p b = false := hfree b (by simp)
    have := ih cs s rest (fun a ha => hfree a (List.mem_cons_of_mem _ ha)) h
    simpa using splitSegP_head_cons p b (u ++ cs) hb (u ++ s) rest this

theorem splitSegP_joinSegChars (c : Char) : ∀ (L : List (List Char)),
    (∀ x ∈ L, ∀ a ∈ x, (a = c) = False) → L ≠ [] →
    splitSegP (fun a => decide (a = c)) (joinSegChars c L) = L := by
  intro L
  induction L with
  | nil => intro _ h; exact absurd rfl h
  | cons x rest ih =>
    intro hfree _
    match rest, ih with
    | [], _ =>
      exact splitSegP_of_free _ x (fun a ha => by
        simpa using hfree x (by simp) a ha)
    | y :: r, ih =>
      have hrec := ih (fun z hz a ha => hfree z (List.mem_cons_of_mem _ hz) a ha)
        (by simp)
      have hstep : splitSegP (fun a => decide (a = c)) (c :: joinSegChars c (y :: r)) =
          [] :: splitSegP (fun a => decide (a = c)) (joinSegChars c (y :: r)) :=
        splitSegP_cons_sep _ c _ (by simp)
      have : splitSegP (fun a => decide (a = c)) (x ++ c :: joinSegChars c (y :: r)) =
          (x ++ []) :: splitSegP (fun a => decide (a = c)) (joinSegChars c (y :: r)) := by
        refine splitSegP_append_free _ x _ [] _ ?_ ?_
        · intro a ha
          simpa using hfree x (by simp) a ha
        · rw [hstep]
      rw [joinSegChars]
      rw [this, hrec]
      simp

theorem count_joinSegChars (c : Char) : ∀ (L : List (List Char)),
    (∀ x ∈ L, c ∉ x) → (joinSegChars c L).count c = L.length - 1 := by
  intro L
  induction L with
  | nil => simp [joinSegChars]
  | cons x rest ih =>
    intro hfree
    match rest, ih with
    | [], _ =>
      simp [joinSegChars, List.count_eq_zero.2 (hfree x (by simp))]
    | y :: r, ih =>
      have hrec := ih (fun z hz => hfree z (List.mem_cons_of_mem _ hz))
      rw [joinSegChars]
      rw [List.count_append, List.count_cons]
      rw [List.count_eq_zero.2 (hfree x (by simp)), hrec]
      simp

theorem pyStripChars_infixOf (cs : List Char) : pyStripChars cs <:+: cs := by
  unfold pyStripChars
  have h1 : cs.dropWhile Char.isWhitespace <:+ cs := List.dropWhile_suffix _
  have h2 : (cs.dropWhile Char.isWhitespace).reverse.dropWhile Char.isWhitespace <:+
      (cs.dropWhile Char.isWhitespace).reverse := List.dropWhile_suffix _
  have h3 : ((cs.dropWhile Char.isWhitespace).reverse.dropWhile Char.isWhitespace).reverse
      <+: (cs.dropWhile Char.isWhitespace).reverse.reverse := List.reverse_prefix.2 h2
  rw [List.reverse_reverse] at h3
  exact h3.isInfix.trans h1.isInfix

theorem pyStrip_length_le (s : String) : (pyStrip s).length ≤ s.length :=
  ((pyStripChars_infixOf s.data).sublist).length_le

theorem pySlice_length_le (n : Nat) (s : String) : (pySlice n s).length ≤ n :=
  List.length_take_le n s.data

theorem badLine_of_infix (a b : String) (h : a.data <:+: b.data)
    (hb : badLine b = false) : badLine a = false := by
  have sub : ∀ n : String, strHas n b = false → strHas n a = false := by
    intro n hn
    cases hh : strHas n a with
    | false => rfl
    | true =>
      have : strHas n b = true :=
        (strHas_iff_infixOf _ _).2 (((strHas_iff_infixOf _ _).1 hh).trans h)
      rw [this] at hn
      exact hn
  simp only [badLine, Bool.or_eq_false_iff, decide_eq_false_iff_not] at hb ⊢
  obtain ⟨⟨⟨h1, h2⟩, h3⟩, h4⟩ := hb
  refine ⟨⟨⟨sub _ h1, sub _ h2⟩, sub _ h3⟩, ?_⟩
  have := List.Sublist.countP_le Char.isDigit h.sublist
  omega

theorem postFilter_core (target : Nat) (cleaned : List String)
    (hclean : ∀ ln ∈ cleaned, badLine ln = false)
    (hfree : ∀ ln ∈ cleaned, ∀ a ∈ ln.data, a ≠ '\n')
    (hlen : cleaned.length ≤ 6) :
    ((if pyStrip (pySlice target (joinWith '\n' cleaned)) = ""
        then "• (Summary trimmed.)"
        else pyStrip (pySlice target (joinWith '\n' cleaned))) ≠ "") ∧
    (if pyStrip (pySlice target (joinWith '\n' cleaned)) = ""
        then "• (Summary trimmed.)"
        else pyStrip (pySlice target (joinWith '\n' cleaned))).length ≤ max target 20 ∧
    (∀ seg ∈ splitSeg '\n'
        (if pyStrip (pySlice target (joinWith '\n' cleaned)) = ""
          then "• (Summary trimmed.)"
          else pyStrip (pySlice target (joinWith '\n' cleaned))).data,
      badLine (String.mk seg) = false) ∧
    (splitSeg '\n'
        (if pyStrip (pySlice target (joinWith '\n' cleaned)) = ""
          then "• (Summary trimmed.)"
          else pyStrip (pySlice target (joinWith '\n' cleaned))).data).length ≤ 6 := by
  by_cases hj : pyStrip (pySlice target (joinWith '\n' cleaned)) = ""
  · rw [if_pos hj]
    refine ⟨by decide, ?_, by decide, by decide⟩
    have h20 : ("• (Summary trimmed.)" : String).length = 20 := by decide
    rw [h20]
    exact le_max_right _ _
  · rw [if_neg hj]
    have hcne : cleaned ≠ [] := by
      intro hc
      apply hj
      rw [hc]
      show pyStrip (pySlice target (joinWith '\n' [])) = ""
      simp [joinWith, joinSegChars, pySlice, pyStrip, pyStripChars]
    have hJfree : ∀ x ∈ cleaned.map String.data, ∀ a ∈ x, (a = '\n') = False := by
      intro x hx a ha
      obtain ⟨ln, hln, rfl⟩ := List.mem_map.1 hx
      exact eq_false (hfree ln hln a ha)
    have hsplitJ : splitSegP (fun a => decide (a = '\n'))
        (joinSegChars '\n' (cleaned.map String.data)) = cleaned.map String.data :=
      splitSegP_joinSegChars '\n' (cleaned.map String.data) hJfree
        (by simpa using hcne)
    have hinfJ : (pyStrip (pySlice target (joinWith '\n' cleaned))).data <:+:
        joinSegChars '\n' (cleaned.map String.data) := by
      have h1 : (pyStrip (pySlice target (joinWith '\n' cleaned))).data <:+:
          (pySlice target (joinWith '\n' cleaned)).data := pyStripChars_infixOf _
      have h2 : (pySlice target (joinWith '\n' cleaned)).data <:+:
          (joinWith '\n' cleaned).data := (List.take_prefix _ _).isInfix
      exact h1.trans h2
    refine ⟨hj, ?_, ?_, ?_⟩
    · exact le_trans (le_trans (pyStrip_length_le _) (pySlice_length_le _ _))
        (le_max_left _ _)
    · intro seg hseg
      have hsegfree : ∀ a ∈ seg, a ≠ '\n' := by
        intro a ha
        have := mem_splitSegP_not _ _ seg hseg a ha
        simpa using this
      have hseginf : seg <:+: joinSegChars '\n' (cleaned.map String.data) :=
        (mem_splitSegP_infixPiece _ _ seg hseg).trans hinfJ
      obtain ⟨piece, hpmem, hpinf⟩ := infix_piece_of_splitSegP
        (fun a => decide (a = '\n')) _ seg
        (fun a ha => by simpa using hsegfree a ha) hseginf
      rw [hsplitJ] at hpmem
      obtain ⟨ln, hln, rfl⟩ := List.mem_map.1 hpmem
      exact badLine_of_infix (String.mk seg) ln hpinf (hclean ln hln)
    · have hlenJ := splitSegP_length (fun a => decide (a = '\n'))
        (joinSegChars '\n' (cleaned.map String.data))
      rw [hsplitJ] at hlenJ
      have hcount : (joinSegChars '\n' (cleaned.map String.data)).countP
          (fun a => decide (a = '\n')) + 1 ≤ 6 := by
        rw [← hlenJ]
        simpa using hlen
      have hmono := List.Sublist.countP_le (fun a => decide (a = '\n')) hinfJ.sublist
      have := splitSegP_length (fun a => decide (a = '\n'))
        (pyStrip (pySlice target (joinWith '\n' cleaned))).data
      simp only [splitSeg]
      omega

theorem summaryLines_shape (cand ln : String) (h : ln ∈ summaryLines cand) :
    ∃ seg ∈ splitSeg '\n' cand.data, ln = pyStrip (String.mk seg) := by
  have h1 := List.mem_filter.1 h
  obtain ⟨seg, hseg, rfl⟩ := List.mem_map.1 h1.1
  exact ⟨seg, hseg, rfl⟩

theorem postFilter_spec (target : Nat) (cand : String) :
    postFilter target cand ≠ "" ∧
    (postFilter target cand).length ≤ max target 20 ∧
    (∀ seg ∈ splitSeg '\n' (postFilter target cand).data,
        badLine (String.mk seg) = false) ∧
    (splitSeg '\n' (postFilter target cand).data).length ≤ 6 := by
  have hclean : ∀ ln ∈ ((summaryLines cand).filter (fun ln => !badLine ln)).take 6,
      badLine ln = false := by
    intro ln hln
    have := List.mem_filter.1 (List.mem_of_mem_take hln)
    simpa using this.2
  have hfree : ∀ ln ∈ ((summaryLines cand).filter (fun ln => !badLine ln)).take 6,
      ∀ a ∈ ln.data, a ≠ '\n' := by
    intro ln hln a ha
    have hmem := (List.mem_filter.1 (List.mem_of_mem_take hln)).1
    obtain ⟨seg, hseg, rfl⟩ := summaryLines_shape cand ln hmem
    have hain : a ∈ seg := (pyStripChars_infixOf seg).sublist.subset ha
    have := mem_splitSegP_not _ _ seg hseg a hain
    simpa using this
  exact postFilter_core target _ hclean hfree (List.length_take_le _ _)

/-- C6: whenever `maybe_summarize` triggers (either path), the deterministic
post-filter is what produces the stored summary: the new summary is exactly
`postFilter` of the pre-filter candidate, the pending queue is cleared only
after the filtered summary is in place, no surviving line carries a currency
symbol, a URL marker, or six or more digits — in particular no line contains
"ETH price is $3482.12 right now, 6 digits" — and at most 6 lines are kept,
hard-truncated to the character budget (`postFilter` truncates with
`[:summary_target_chars]`, falling back to a fixed bullet when everything
was filtered away). -/
theorem summarize_post_filter_applied (st : MemoryStore) (s : SessionMemory)
    (llm : Option (Except Unit String)) (htrig : shouldSummarize st s = true) :
    ((MemoryStore.maybeSummarize st s llm).1.summary =
        postFilter st.summaryTargetChars (summaryCandidate st s llm)) ∧
    (MemoryStore.maybeSummarize st s llm).1.pending = [] ∧
    (∀ seg ∈ splitSeg '\n' (MemoryStore.maybeSummarize st s llm).1.summary.data,
        badLine (String.mk seg) = false) ∧
    (splitSeg '\n' (MemoryStore.maybeSummarize st s llm).1.summary.data).length ≤ 6 ∧
    strHas "ETH price is $3482.12 right now, 6 digits"
        (MemoryStore.maybeSummarize st s llm).1.summary = false := by
  have hsum : (MemoryStore.maybeSummarize st s llm).1.summary =
      postFilter st.summaryTargetChars (summaryCandidate st s llm) := by
    simp [MemoryStore.maybeSummarize, htrig]
  have hpend : (MemoryStore.maybeSummarize st s llm).1.pending = [] := by
    simp [MemoryStore.maybeSummarize, htrig]
  obtain ⟨_, _, h3, h4⟩ := postFilter_spec st.summaryTargetChars (summaryCandidate st s llm)
  refine ⟨hsum, hpend, by rw [hsum]; exact h3, by rw [hsum]; exact h4, ?_⟩
  rw [hsum]
  cases hh : strHas "ETH price is $3482.12 right now, 6 digits"
      (postFilter st.summaryTargetChars (summaryCandidate st s llm)) with
  | false => rfl
  | true =>
    exfalso
    have hinf := (strHas_iff_infixOf _ _).1 hh
    have hdol : '$' ∈ (postFilter st.summaryTargetChars
        (summaryCandidate st s llm)).data := hinf.sublist.subset (by decide)
    obtain ⟨u, v, huv⟩ := List.append_of_mem hdol
    have hone : ['$'] <:+: (postFilter st.summaryTargetChars
        (summaryCandidate st s llm)).data := ⟨u, v, by rw [huv]; simp⟩
    obtain ⟨piece, hpmem, hpinf⟩ := infix_piece_of_splitSegP
      (fun a => decide (a = '\n')) _ ['$'] (by decide) hone
    have hbad := h3 piece hpmem
    have hdolp : strHas "$" (String.mk piece) = true :=
      (strHas_iff_infixOf "$" (String.mk piece)).2 hpinf
    simp [badLine, hdolp] at hbad

/-- witness for C6: a store that triggers on one pending turn, the leaking
LLM completion; the filtered summary keeps the clean bullets only. -/
theorem summarize_post_filter_witness :
    ((MemoryStore.maybeSummarize trigStore ethSession leakyLLM).1.summary =
        postFilter trigStore.summaryTargetChars
          (summaryCandidate trigStore ethSession leakyLLM)) ∧
    (MemoryStore.maybeSummarize trigStore ethSession leakyLLM).1.pending = [] ∧
    (∀ seg ∈ splitSeg '\n'
        (MemoryStore.maybeSummarize trigStore ethSession leakyLLM).1.summary.data,
        badLine (String.mk seg) = false) ∧
    (splitSeg '\n'
        (MemoryStore.maybeSummarize trigStore ethSession
          leakyLLM).1.summary.data).length ≤ 6 ∧
    strHas "ETH price is $3482.12 right now, 6 digits"
        (MemoryStore.maybeSummarize trigStore ethSession leakyLLM).1.summary = false :=
  summarize_post_filter_applied trigStore ethSession leakyLLM (by decide)

/-- C10 (counterexample): with a zero summary character budget the triggered
summarization still stores the 20-character fallback bullet, violating
`len(summary) ≤ summary_target_chars`. -/
theorem summarize_budget_counterexample :
    shouldSummarize zeroBudgetStore ethSession = true ∧
    zeroBudgetStore.summaryTargetChars = 0 ∧
    (MemoryStore.maybeSummarize zeroBudgetStore ethSession none).1.summary.length = 20 := by
  refine ⟨by decide, by decide, by decide⟩

/-- C10 (amended): whenever `maybe_summarize` triggers, on return the pending
queue is empty, the durable summary is non-empty, its length is bounded by
`max summary_target_chars 20` (20 = the fixed fallback bullet's length; the
plain `summary_target_chars` bound fails for budgets below 20, see the
counterexample), and the stats record reports `pending_turns = 0` and
`dropped_turns` equal to the number of pending turns that were compressed. -/
theorem summarize_invariants (st : MemoryStore) (s : SessionMemory)
    (llm : Option (Except Unit String)) (htrig : shouldSummarize st s = true) :
    (MemoryStore.maybeSummarize st s llm).1.pending = [] ∧
    (MemoryStore.maybeSummarize st s llm).1.summary ≠ "" ∧
    (MemoryStore.maybeSummarize st s llm).1.summary.length ≤
      max st.summaryTargetChars 20 ∧
    (MemoryStore.maybeSummarize st s llm).2.pendingTurns = 0 ∧
    (MemoryStore.maybeSummarize st s llm).2.droppedTurns = s.pending.length ∧
    (MemoryStore.maybeSummarize st s llm).2.wasSummarized = true := by
  obtain ⟨h1, h2, _, _⟩ := postFilter_spec st.summaryTargetChars
    (summaryCandidate st s llm)
  refine ⟨?_, ?_, ?_, ?_, ?_, ?_⟩ <;>
    simp [MemoryStore.maybeSummarize, htrig, h1, h2]

/-- witness for the amended C10. -/
theorem summarize_invariants_witness :
    (MemoryStore.maybeSummarize trigStore ethSession none).1.pending = [] ∧
    (MemoryStore.maybeSummarize trigStore ethSession none).1.summary ≠ "" ∧
    (MemoryStore.maybeSummarize trigStore ethSession none).1.summary.length ≤
      max trigStore.summaryTargetChars 20 ∧
    (MemoryStore.maybeSummarize trigStore ethSession none).2.pendingTurns = 0 ∧
    (MemoryStore.maybeSummarize trigStore ethSession none).2.droppedTurns =
      ethSession.pending.length ∧
    (MemoryStore.maybeSummarize trigStore ethSession none).2.wasSummarized = true :=
  summarize_invariants trigStore ethSession none (by decide)

theorem pyInsert_perm {α : Type} (le : α → α → Bool) (a : α) (l : List α) :
    (pyInsert le a l).Perm (a :: l) := by
  induction l with
  | nil => simp [pyInsert]
  | cons b t ih =>
    rw [pyInsert]
    split
    · exact List.Perm.refl _
    · exact (List.Perm.cons b ih).trans (List.Perm.swap a b t)

theorem pySorted_perm {α : Type} (le : α → α → Bool) (l : List α) :
    (pySorted le l).Perm l := by
  induction l with
  | nil => exact List.Perm.refl _
  | cons a t ih =>
    rw [pySorted]
    exact (pyInsert_perm le a (pySorted le t)).trans (List.Perm.cons a ih)

theorem mem_pyInsert {α : Type} (le : α → α → Bool) (a x : α) (l : List α)
    (h : x ∈ pyInsert le a l) : x = a ∨ x ∈ l := by
  have := (pyInsert_perm le a l).mem_iff.1 h
  simpa using this

theorem pyInsert_pairwise {α : Type} (le : α → α → Bool)
    (htrans : ∀ x y z, le x y = true → le y z = true → le x z = true)
    (htotal : ∀ x y, le x y || le y x)
    (a : α) (l : List α) (h : l.Pairwise (fun x y => le x y = true)) :
    (pyInsert le a l).Pairwise (fun x y => le x y = true) := by
  induction l with
  | nil => simp [pyInsert]
  | cons b t ih =>
    rw [List.pairwise_cons] at h
    obtain ⟨hb, ht⟩ := h
    rw [pyInsert]
    split
    · rename_i hab
      rw [List.pairwise_cons]
      refine ⟨?_, ?_⟩
      · intro y hy
        rcases List.mem_cons.1 hy with rfl | hy
        · exact hab
        · exact htrans a b y hab (hb y hy)
      · rw [List.pairwise_cons]
        exact ⟨hb, ht⟩
    · rename_i hab
      have hba : le b a = true := by
        have := htotal a b
        rcases Bool.or_eq_true_iff.1 this with h1 | h1
        · exact absurd h1 hab
        · exact h1
      rw [List.pairwise_cons]
      refine ⟨?_, ih ht⟩
      intro y hy
      rcases mem_pyInsert le a y t hy with rfl | hy
      · exact hba
      · exact hb y hy

theorem pySorted_pairwise {α : Type} (le : α → α → Bool)
    (htrans : ∀ x y z, le x y = true → le y z = true → le x z = true)
    (htotal : ∀ x y, le x y || le y x)
    (l : List α) :
    (pySorted le l).Pairwise (fun x y => le x y = true) := by
  induction l with
  | nil => exact List.Pairwise.nil
  | cons a t ih =>
    rw [pySorted]
    exact pyInsert_pairwise le htrans htotal a (pySorted le t) ih

theorem gtSortLe_total (a b : Rat × GTItem) : gtSortLe a b || gtSortLe b a := by
  simp only [gtSortLe, Bool.or_eq_true, decide_eq_true_eq, Bool.and_eq_true]
  rcases lt_trichotomy a.1 b.1 with h | h | h
  · right; left; exact h
  · rcases le_total ((a.2.liquidityUsd).getD 0) ((b.2.liquidityUsd).getD 0) with hl | hl
    · right; right; exact ⟨h, hl⟩
    · left; right; exact ⟨h.symm, hl⟩
  · left; left; exact h

theorem gtSortLe_trans (a b c : Rat × GTItem) (h1 : gtSortLe a b = true)
    (h2 : gtSortLe b c = true) : gtSortLe a c = true := by
  simp only [gtSortLe, Bool.or_eq_true, decide_eq_true_eq, Bool.and_eq_true] at h1 h2 ⊢
  rcases h1 with h1 | ⟨h1e, h1l⟩ <;> rcases h2 with h2 | ⟨h2e, h2l⟩
  · left; exact h2.trans h1
  · left; exact lt_of_le_of_lt (le_of_eq h2e) h1
  · left; exact lt_of_lt_of_le h2 (le_of_eq h1e)
  · right; exact ⟨h2e.trans h1e, h2l.trans h1l⟩

theorem gtSortLe_of_key_lt (a b : Rat × GTItem) (h : b.1 < a.1) :
    gtSortLe a b = true := by
  simp only [gtSortLe, Bool.or_eq_true, decide_eq_true_eq, Bool.and_eq_true]
  left; exact h

theorem gtSortLe_key_le (a b : Rat × GTItem) (h : gtSortLe a b = true) :
    b.1 ≤ a.1 := by
  simp only [gtSortLe, Bool.or_eq_true, decide_eq_true_eq, Bool.and_eq_true] at h
  rcases h with h | ⟨he, _⟩
  · exact le_of_lt h
  · exact le_of_eq he

theorem liqScore_bounds (r : GTRow) :
    0 ≤ (match r.reserveInUsd with
          | some v => if 0 < v then min 1 (v / 50000) else 0
          | none => (0 : Rat)) ∧
    (match r.reserveInUsd with
      | some v => if 0 < v then min 1 (v / 50000) else 0
      | none => (0 : Rat)) ≤ 1 := by
  match r.reserveInUsd with
  | some v =>
    by_cases h : 0 < v
    · simp only [h, if_true]
      constructor
      · exact le_min (by norm_num) (by positivity)
      · exact min_le_left _ _
    · simp [h]
  | none => simp

theorem gtScore_lt_of_hits (sim : String → String → Rat)
    (hsim : ∀ a b, 0 ≤ sim a b ∧ sim a b ≤ 1) (ql : String) (toks : List String)
    (A B : GTRow) (hq : toks ≠ [])
    (hA : ∀ t ∈ toks, strHas t (gtJoined A) = true)
    (hB : ∀ t ∈ toks, strHas t (gtJoined B) = false) :
    gtScore sim ql toks B < gtScore sim ql toks A := by
  have hAcount : toks.countP (fun t => strHas t (gtJoined A)) = toks.length :=
    List.countP_eq_length.2 hA
  have hBcount : toks.countP (fun t => strHas t (gtJoined B)) = 0 := by
    rw [List.countP_eq_zero]
    intro t ht
    simp [hB t ht]
  have hlen : (0 : Rat) < toks.length := by
    have : 0 < toks.length := List.length_pos.2 hq
    exact_mod_cast this
  have hAhit : ((toks.countP (fun t => strHas t (gtJoined A)) : Rat)) /
      (toks.length : Rat) = 1 := by
    rw [hAcount]
    exact div_self (ne_of_gt hlen)
  have hBhit : ((toks.countP (fun t => strHas t (gtJoined B)) : Rat)) /
      (toks.length : Rat) = 0 := by
    rw [hBcount]
    simp
  have hsimA := hsim ql (pySlice 80 (gtJoined A))
  have hsimB := hsim ql (pySlice 80 (gtJoined B))
  have hliqA := liqScore_bounds A
  have hliqB := liqScore_bounds B
  simp only [gtScore, hAhit, hBhit, hq, ne_eq, not_false_eq_true, if_true]
  norm_num
  split_ifs with h2 <;>
    nlinarith [hsimA.1, hsimA.2, hsimB.1, hsimB.2, hliqA.1, hliqA.2, hliqB.1,
      hliqB.2]

theorem gtScore_eq_of_item_eq (sim : String → String → Rat) (ql : String)
    (toks : List String) (r s : GTRow) (h : gtItemOf r = gtItemOf s) :
    gtScore sim ql toks r = gtScore sim ql toks s := by
  have hname : r.poolName = s.poolName := by
    have := congrArg GTItem.name h
    simpa [gtItemOf] using this
  have hbn : r.baseName = s.baseName := by
    have := congrArg (fun i => i.baseToken.name) h
    simpa [gtItemOf] using this
  have hbs : r.baseSym = s.baseSym := by
    have := congrArg (fun i => i.baseToken.symbol) h
    simpa [gtItemOf] using this
  have hliq : r.reserveInUsd = s.reserveInUsd := by
    have := congrArg GTItem.liquidityUsd h
    simpa [gtItemOf] using this
  simp [gtScore, gtJoined, hname, hbn, hbs, hliq]

theorem gtJoined_eq_of_item_eq (r s : GTRow) (h : gtItemOf r = gtItemOf s) :
    gtJoined r = gtJoined s := by
  have hname : r.poolName = s.poolName := by
    have := congrArg GTItem.name h
    simpa [gtItemOf] using this
  have hbn : r.baseName = s.baseName := by
    have := congrArg (fun i => i.baseToken.name) h
    simpa [gtItemOf] using this
  have hbs : r.baseSym = s.baseSym := by
    have := congrArg (fun i => i.baseToken.symbol) h
    simpa [gtItemOf] using this
  simp [gtJoined, hname, hbn, hbs]

/-- C7: with a non-empty normalized token set, a candidate whose joined
pool/base-token text contains every query token (in particular one whose
base-token symbol exactly matches all query tokens) scores strictly above a
candidate whose joined text contains none of them, whatever either
liquidity is, and therefore is ranked strictly earlier by
`search_geckoterminal_pools`'s sort.  Holds for every similarity oracle
valued in [0, 1], as `difflib`'s ratio is. -/
theorem pool_ranking_keyword_dominates
    (sim : String → String → Rat) (hsim : ∀ a b, 0 ≤ sim a b ∧ sim a b ≤ 1)
    (q : String) (limit : Nat) (rows : List GTRow) (A B : GTRow)
    (hq : qTokensOf (pyStrip (pyLower q)) ≠ [])
    (hA : ∀ t ∈ qTokensOf (pyStrip (pyLower q)), strHas t (gtJoined A) = true)
    (hB : ∀ t ∈ qTokensOf (pyStrip (pyLower q)), strHas t (gtJoined B) = false) :
    gtScore sim (pyStrip (pyLower q)) (qTokensOf (pyStrip (pyLower q))) B <
      gtScore sim (pyStrip (pyLower q)) (qTokensOf (pyStrip (pyLower q))) A ∧
    ∀ (i j : Nat) (hi : i < (rankGTRows sim q limit rows).length)
      (hj : j < (rankGTRows sim q limit rows).length),
      (rankGTRows sim q limit rows).get ⟨i, hi⟩ = gtItemOf A →
      (rankGTRows sim q limit rows).get ⟨j, hj⟩ = gtItemOf B → i < j := by
  have hlt := gtScore_lt_of_hits sim hsim (pyStrip (pyLower q))
    (qTokensOf (pyStrip (pyLower q))) A B hq hA hB
  refine ⟨hlt, ?_⟩
  intro i j hi hj hIA hJB
  by_contra hij
  have hAB : gtItemOf A ≠ gtItemOf B := by
    intro he
    obtain ⟨t, ht⟩ := List.exists_mem_of_ne_nil _ hq
    have h1 := hA t ht
    rw [gtJoined_eq_of_item_eq A B he] at h1
    rw [hB t ht] at h1
    simp at h1
  have hne : i ≠ j := by
    intro he
    subst he
    exact hAB (by rw [← hIA, ← hJB])
  have hji : j < i := by omega
  -- move to the sorted scored list
  have hsorted := pySorted_pairwise gtSortLe gtSortLe_trans gtSortLe_total
    ((rows.take (gtWindow limit)).map
      (fun r => (gtScore sim (pyStrip (pyLower q))
        (qTokensOf (pyStrip (pyLower q))) r, gtItemOf r)))
  have hperm := pySorted_perm gtSortLe
    ((rows.take (gtWindow limit)).map
      (fun r => (gtScore sim (pyStrip (pyLower q))
        (qTokensOf (pyStrip (pyLower q))) r, gtItemOf r)))
  set scored := (rows.take (gtWindow limit)).map
    (fun r => (gtScore sim (pyStrip (pyLower q))
      (qTokensOf (pyStrip (pyLower q))) r, gtItemOf r)) with hscored
  set sorted := pySorted gtSortLe scored with hsortedDef
  have hout : rankGTRows sim q limit rows =
      (sorted.take (gtWindow limit)).map (fun e => e.2) := rfl
  have hlen : (rankGTRows sim q limit rows).length =
      ((sorted.take (gtWindow limit))).length := by rw [hout]; simp
  have hi2 : i < (sorted.take (gtWindow limit)).length := hlen ▸ hi
  have hj2 : j < (sorted.take (gtWindow limit)).length := hlen ▸ hj
  have hi3 : i < sorted.length := by
    have := hi2
    rw [List.length_take] at this
    omega
  have hj3 : j < sorted.length := by
    have := hj2
    rw [List.length_take] at this
    omega
  have hgetI : (rankGTRows sim q limit rows).get ⟨i, hi⟩ = (sorted.get ⟨i, hi3⟩).2 := by
    show ((sorted.take (gtWindow limit)).map (fun e => e.2)).get ⟨i, by simpa using hi2⟩ =
      (sorted.get ⟨i, hi3⟩).2
    rw [List.get_eq_getElem, List.get_eq_getElem]
    rw [List.getElem_map, List.getElem_take]
  have hgetJ : (rankGTRows sim q limit rows).get ⟨j, hj⟩ = (sorted.get ⟨j, hj3⟩).2 := by
    show ((sorted.take (gtWindow limit)).map (fun e => e.2)).get ⟨j, by simpa using hj2⟩ =
      (sorted.get ⟨j, hj3⟩).2
    rw [List.get_eq_getElem, List.get_eq_getElem]
    rw [List.getElem_map, List.getElem_take]
  have hpair := List.pairwise_iff_get.1 hsorted ⟨j, hj3⟩ ⟨i, hi3⟩ hji
  have hkey : (sorted.get ⟨i, hi3⟩).1 ≤ (sorted.get ⟨j, hj3⟩).1 :=
    gtSortLe_key_le _ _ hpair
  have hmemI : sorted.get ⟨i, hi3⟩ ∈ scored :=
    hperm.mem_iff.1 (List.get_mem sorted i hi3)
  have hmemJ : sorted.get ⟨j, hj3⟩ ∈ scored :=
    hperm.mem_iff.1 (List.get_mem sorted j hj3)
  obtain ⟨rA, _, hfA⟩ := List.mem_map.1 hmemI
  obtain ⟨rB, _, hfB⟩ := List.mem_map.1 hmemJ
  have hitemA : gtItemOf rA = gtItemOf A := by
    have := congrArg Prod.snd hfA
    simp only at this
    rw [this, ← hgetI, hIA]
  have hitemB : gtItemOf rB = gtItemOf B := by
    have := congrArg Prod.snd hfB
    simp only at this
    rw [this, ← hgetJ, hJB]
  have hscoreA : (sorted.get ⟨i, hi3⟩).1 =
      gtScore sim (pyStrip (pyLower q)) (qTokensOf (pyStrip (pyLower q))) A := by
    have := congrArg Prod.fst hfA
    simp only at this
    rw [← this]
    exact gtScore_eq_of_item_eq _ _ _ _ _ hitemA
  have hscoreB : (sorted.get ⟨j, hj3⟩).1 =
      gtScore sim (pyStrip (pyLower q)) (qTokensOf (pyStrip (pyLower q))) B := by
    have := congrArg Prod.fst hfB
    simp only at this
    rw [← this]
    exact gtScore_eq_of_item_eq _ _ _ _ _ hitemB
  rw [hscoreA, hscoreB] at hkey
  linarith

/-- witness for C7: the exact-symbol-match candidate outscores the
no-overlap high-liquidity candidate for the query "pepe". -/
theorem pool_ranking_keyword_dominates_witness :
    gtScore simZero (pyStrip (pyLower "pepe"))
        (qTokensOf (pyStrip (pyLower "pepe"))) gtRowB <
      gtScore simZero (pyStrip (pyLower "pepe"))
        (qTokensOf (pyStrip (pyLower "pepe"))) gtRowA :=
  (pool_ranking_keyword_dominates simZero
    (fun a b => ⟨le_refl 0, by norm_num [simZero]⟩) "pepe" 6 [gtRowA, gtRowB]
    gtRowA gtRowB (by decide) (by decide) (by decide)).1

theorem cacheGet_hit_mem {V : Type} (now : Nat) (m : List (String × Nat × V))
    (k : String) (v : V) (h : (cacheGet now m k).1 = some v) :
    ∃ p ∈ m, p.2.2 = v := by
  unfold cacheGet at h
  split at h
  · rename_i e hfind
    split at h
    · simp only [Option.some.injEq] at h
      exact ⟨e, List.mem_of_find?_eq_some hfind, h⟩
    · simp at h
  · simp at h

theorem cacheGet_sub {V : Type} (now : Nat) (m : List (String × Nat × V))
    (k : String) (p : String × Nat × V) (h : p ∈ (cacheGet now m k).2) : p ∈ m := by
  unfold cacheGet at h
  split at h
  · rename_i e hfind
    split at h
    · exact h
    · exact List.mem_of_mem_filter h
  · exact h

theorem cacheSet_mem {V : Type} (now ttl : Nat) (m : List (String × Nat × V))
    (k : String) (v : V) (p : String × Nat × V)
    (h : p ∈ cacheSet now ttl m k v) : p = (k, now + ttl, v) ∨ p ∈ m := by
  unfold cacheSet at h
  rcases List.mem_cons.1 h with h | h
  · exact Or.inl h
  · exact Or.inr (List.mem_of_mem_filter h)

theorem newsItemOf_title (w : Bool) (r : NewsRow) (it : NewsItem)
    (h : newsItemOf w r = some it) : it.title ≠ "" := by
  simp only [newsItemOf] at h
  split at h
  · rename_i ht
    obtain rfl := Option.some.inj h
    show (r.title.getD "") ≠ ""
    cases hr : r.title with
    | none => rw [hr] at ht; simp [pyTruthy] at ht
    | some t =>
      rw [hr] at ht
      simp only [pyTruthy, Bool.not_eq_true'] at ht
      intro he
      have he2 : t = "" := he
      rw [he2] at ht
      exact absurd ht (by decide)
  · exact absurd h (by simp)

theorem pickNewsItems_shape (all : List NewsItem)
    (hall : ∀ it ∈ all, it.title ≠ "") :
    (pickNewsItems all).length ≤ 7 ∧
    (∀ it ∈ pickNewsItems all, it.title ≠ "") ∧
    ∃ base extra, pickNewsItems all = base ++ extra ∧ base.length ≤ 5 ∧
      extra.length ≤ 2 ∧
      ∀ it ∈ extra, it.sentiment = "bullish" ∨ it.sentiment = "bearish" := by
  refine ⟨?_, ?_, ?_⟩
  · unfold pickNewsItems
    rw [List.length_append]
    have h1 : (all.take 5).length ≤ 5 := List.length_take_le _ _
    have h2 := List.length_take_le (7 - (all.take 5).length)
      ((all.drop 5).filter (fun it => it.sentiment = "bullish" || it.sentiment = "bearish"))
    omega
  · intro it hit
    unfold pickNewsItems at hit
    rcases List.mem_append.1 hit with h | h
    · exact hall it (List.mem_of_mem_take h)
    · exact hall it (List.mem_of_mem_drop (List.mem_of_mem_filter (List.mem_of_mem_take h)))
  · refine ⟨all.take 5,
      ((all.drop 5).filter
        (fun it => it.sentiment = "bullish" || it.sentiment = "bearish")).take
          (7 - (all.take 5).length), rfl, List.length_take_le _ _, ?_, ?_⟩
    · by_cases h5 : 5 ≤ all.length
      · have : (all.take 5).length = 5 := by
          rw [List.length_take]
          omega
        rw [this]
        exact List.length_take_le _ _
      · have hd : all.drop 5 = [] := List.drop_eq_nil_of_le (by omega)
        rw [hd]
        simp
    · intro it hit
      have := List.mem_filter.1 (List.mem_of_mem_take hit)
      have hb := this.2
      simp only [Bool.or_eq_true, decide_eq_true_eq] at hb
      exact hb

/-- C9: `get_latest_news` always returns at most 7 items — the (at most) 5
newest accepted headline items in order, plus at most 2 later items whose
sentiment is bullish or bearish — and every returned item has a non-empty
title.  Stated as an invariant: it holds of every returned value and is
preserved in the cache, and on a fresh fetch the items are exactly
`pickNewsItems` of the accepted rows. -/
theorem getLatestNews_shape (o : HttpOracle) (ttl : Nat) (apiKey : String)
    (wantEstimate : Bool) (sym : String) (st : ToolsState)
    (hcache : ∀ p ∈ st.newsCache, newsOK p.2.2) :
    newsResultOK (getLatestNews o ttl apiKey wantEstimate sym st).1 ∧
    (∀ p ∈ (getLatestNews o ttl apiKey wantEstimate sym st).2.newsCache,
      newsOK p.2.2) ∧
    (∀ rs, o.newsPosts (pyUpper (pyStrip sym)) = .ok rs →
      (cacheGet st.now st.newsCache (pyUpper (pyStrip sym))).1 = none →
      pyStrip apiKey ≠ "" →
      (getLatestNews o ttl apiKey wantEstimate sym st).1 =
        .ok { symbol := pyUpper (pyStrip sym),
              items := pickNewsItems (newsItemsAll wantEstimate rs),
              sources := [cryptopanicSource] }) := by
  have hfreshOK : ∀ rs : List NewsRow,
      newsOK { symbol := pyUpper (pyStrip sym),
               items := pickNewsItems (newsItemsAll wantEstimate rs),
               sources := [cryptopanicSource] } := by
    intro rs
    have htitles : ∀ it ∈ newsItemsAll wantEstimate rs, it.title ≠ "" := by
      intro it hit
      obtain ⟨r, _, hr⟩ := List.mem_filterMap.1 hit
      exact newsItemOf_title wantEstimate r it hr
    exact pickNewsItems_shape (newsItemsAll wantEstimate rs) htitles
  simp only [getLatestNews]
  split
  · rename_i v hget
    refine ⟨?_, ?_, ?_⟩
    · obtain ⟨p, hp, hpv⟩ := cacheGet_hit_mem _ _ _ _ hget
      show newsOK v
      rw [← hpv]
      exact hcache p hp
    · intro p hp
      exact hcache p (cacheGet_sub _ _ _ _ hp)
    · intro rs _ hnone
      rw [hget] at hnone
      exact absurd hnone (by simp)
  · rename_i hget
    by_cases hkey : pyStrip apiKey = ""
    · simp only [if_pos hkey]
      refine ⟨trivial, ?_, ?_⟩
      · intro p hp
        exact hcache p (cacheGet_sub _ _ _ _ hp)
      · intro rs _ _ hk
        exact absurd hkey hk
    · simp only [if_neg hkey]
      split
      · rename_i e hpost
        refine ⟨trivial, ?_, ?_⟩
        · intro p hp
          exact hcache p (cacheGet_sub _ _ _ _ hp)
        · intro rs hrs _ _
          rw [hpost] at hrs
          exact absurd hrs (by simp)
      · rename_i rs hpost
        refine ⟨hfreshOK rs, ?_, ?_⟩
        · intro p hp
          rcases cacheSet_mem _ _ _ _ _ _ hp with h | h
          · rw [h]
            exact hfreshOK rs
          · exact hcache p (cacheGet_sub _ _ _ _ h)
        · intro rs2 hrs2 _ _
          rw [hpost] at hrs2
          simp only [Except.ok.injEq] at hrs2
          rw [hrs2]

/-- witness for C9: the concrete oracle's two posts produce a compliant
result from an empty cache. -/
theorem getLatestNews_shape_witness :
    newsResultOK (getLatestNews ethOracle 60 "key" true "ETH"
      (ToolsState.fresh 0)).1 :=
  (getLatestNews_shape ethOracle 60 "key" true "ETH" (ToolsState.fresh 0)
    (by intro p hp; exact absurd hp (List.not_mem_nil p))).1

theorem symbolToCoingeckoId_preserves (o : HttpOracle) (ttl : Nat) (s : String)
    (st : ToolsState) :
    (symbolToCoingeckoId o ttl s st).2.now = st.now ∧
    (symbolToCoingeckoId o ttl s st).2.marketCache = st.marketCache ∧
    (symbolToCoingeckoId o ttl s st).2.chartLog = st.chartLog := by
  simp only [symbolToCoingeckoId]
  repeat' first
    | exact ⟨rfl, rfl, rfl⟩
    | split

theorem cacheGet_none_find {V : Type} (now : Nat) (m : List (String × Nat × V))
    (k : String) (h : (cacheGet now m k).1 = none) :
    (cacheGet now m k).2.find? (fun e => e.1 = k) = m.find? (fun e => e.1 = k) ∨
    (cacheGet now m k).2.find? (fun e => e.1 = k) = none := by
  unfold cacheGet at h ⊢
  split at h
  · rename_i e hfind
    split at h
    · simp at h
    · rename_i hexp
      right
      rw [if_neg hexp]
      rw [List.find?_eq_none]
      intro x hx
      have := List.of_mem_filter hx
      simpa using this
  · rename_i hfind
    left
    rfl

theorem cacheGet_miss_find_none {V : Type} (now : Nat)
    (m : List (String × Nat × V)) (k : String)
    (h : (cacheGet now m k).1 = none) :
    (cacheGet now m k).2.find? (fun e => decide (now < e.2.1) && decide (e.1 = k)) =
      none := by
  unfold cacheGet at h ⊢
  split at h
  · rename_i e hfind
    split at h
    · simp at h
    · rename_i hexp
      rw [if_neg hexp]
      rw [List.find?_eq_none]
      intro x hx
      have := List.of_mem_filter hx
      simp only [decide_eq_true_eq] at this
      simp [this]
  · rename_i hfind
    rw [List.find?_eq_none]
    intro x hx
    have := List.find?_eq_none.1 hfind x hx
    simp only [decide_eq_true_eq] at this
    simp [this]

theorem cacheSet_find_head {V : Type} (now ttl : Nat)
    (m : List (String × Nat × V)) (k : String) (v : V) :
    (cacheSet now ttl m k v).find? (fun e => e.1 = k) = some (k, now + ttl, v) := by
  unfold cacheSet
  rw [List.find?_cons_of_pos]
  simp

theorem getMarketData_fresh (o : HttpOracle) (ttl : Nat) (sym : String)
    (st : ToolsState)
    (hmiss : (cacheGet st.now st.marketCache (pyLower (pyStrip sym))).1 = none) :
    (∀ v st1, getMarketData o ttl sym st = (.ok v, st1) →
      st1.now = st.now ∧
      st1.chartLog.length = st.chartLog.length + 1 ∧
      st1.marketCache.find? (fun e => e.1 = pyLower (pyStrip sym)) =
        some (pyLower (pyStrip sym), st.now + ttl, v)) ∧
    (∀ e st1, getMarketData o ttl sym st = (.error e, st1) →
      st1.marketCache = (cacheGet st.now st.marketCache (pyLower (pyStrip sym))).2) := by
  have hpres := symbolToCoingeckoId_preserves o ttl (pyLower (pyStrip sym))
    { st with marketCache := (cacheGet st.now st.marketCache
        (pyLower (pyStrip sym))).2 }
  rcases hsym : symbolToCoingeckoId o ttl (pyLower (pyStrip sym))
    { st with marketCache := (cacheGet st.now st.marketCache
        (pyLower (pyStrip sym))).2 } with ⟨res, stx⟩
  rw [hsym] at hpres
  have hnow : stx.now = st.now := hpres.1
  have hmc : stx.marketCache =
      (cacheGet st.now st.marketCache (pyLower (pyStrip sym))).2 := hpres.2.1
  have hcl : stx.chartLog = st.chartLog := hpres.2.2
  constructor
  · intro v st1 hok
    cases res with
    | error e => simp [getMarketData, hmiss, hsym] at hok
    | ok coinId =>
      cases hchart : o.marketChart coinId with
      | error e => simp [getMarketData, hmiss, hsym, hchart] at hok
      | ok prices =>
        cases hsort : pySorted (fun a b => decide (a.1 ≤ b.1)) prices with
        | nil => simp [getMarketData, hmiss, hsym, hchart, hsort] at hok
        | cons p0 prest =>
          simp only [getMarketData, hmiss, hsym, hchart, hsort, Prod.mk.injEq,
            Except.ok.injEq] at hok
          obtain ⟨hv, hst⟩ := hok
          rw [hv] at hst
          refine ⟨?_, ?_, ?_⟩
          · rw [← hst]
            exact hnow
          · rw [← hst]
            show (stx.chartLog ++ [coinId]).length = st.chartLog.length + 1
            simp [hcl]
          · rw [← hst]
            show (cacheSet stx.now ttl stx.marketCache (pyLower (pyStrip sym))
                v).find? (fun e => e.1 = pyLower (pyStrip sym)) =
              some (pyLower (pyStrip sym), st.now + ttl, v)
            rw [cacheSet_find_head, hnow]
  · intro e st1 herr
    cases res with
    | error e2 =>
      simp only [getMarketData, hmiss, hsym, Prod.mk.injEq,
        Except.error.injEq] at herr
      rw [← herr.2]
      exact hmc
    | ok coinId =>
      cases hchart : o.marketChart coinId with
      | error e2 =>
        simp only [getMarketData, hmiss, hsym, hchart, Prod.mk.injEq,
          Except.error.injEq] at herr
        rw [← herr.2]
        show stx.marketCache = _
        exact hmc
      | ok prices =>
        cases hsort : pySorted (fun a b => decide (a.1 ≤ b.1)) prices with
        | nil =>
          simp only [getMarketData, hmiss, hsym, hchart, hsort, Prod.mk.injEq,
            Except.error.injEq] at herr
          rw [← herr.2]
          show stx.marketCache = _
          exact hmc
        | cons p0 prest =>
          simp [getMarketData, hmiss, hsym, hchart, hsort] at herr

theorem cacheGet_find_valid {V : Type} (now : Nat) (m : List (String × Nat × V))
    (k : String) (exp : Nat) (v : V)
    (hfind : m.find? (fun e => e.1 = k) = some (k, exp, v)) (hlt : now < exp) :
    cacheGet now m k = (some v, m) := by
  unfold cacheGet
  simp only [hfind]
  rw [if_pos hlt]

theorem cacheGet_find_expired {V : Type} (now : Nat)
    (m : List (String × Nat × V)) (k : String) (exp : Nat) (v : V)
    (hfind : m.find? (fun e => e.1 = k) = some (k, exp, v)) (hexp : exp ≤ now) :
    (cacheGet now m k).1 = none ∧
    (cacheGet now m k).2.find? (fun e => e.1 = k) = none := by
  unfold cacheGet
  simp only [hfind]
  rw [if_neg (Nat.not_lt.2 hexp)]
  refine ⟨rfl, ?_⟩
  rw [List.find?_eq_none]
  intro x hx
  have := List.of_mem_filter hx
  simpa using this

theorem getMarketData_cache_hit (o : HttpOracle) (ttl : Nat) (sym : String)
    (st : ToolsState) (v : MarketData)
    (hhit : cacheGet st.now st.marketCache (pyLower (pyStrip sym)) =
      (some v, st.marketCache)) :
    getMarketData o ttl sym st = (.ok v, st) := by
  simp only [getMarketData, hhit]

/-- C4: cache idempotence for `get_market_data` on a normalized key. Starting
from a state with no live cache entry for the key, (1) a successful fetch
issues exactly one upstream `market_chart` call and writes a cache entry with
expiry `now + ttl`; a second fetch at any time `t2` strictly before the expiry
is served from the cache: it returns the same value and leaves the state
(in particular the upstream call log) unchanged; (2) at any time `t2` at or
after the expiry the entry is evicted on read (the read returns none and the
entry is gone from the map afterwards) and a second successful fetch issues
one new upstream call; (3) a failed fetch never writes a cache entry: after a
failure the state holds no live entry for the key. -/
theorem market_cache_idempotence (o : HttpOracle) (ttl : Nat) (sym : String)
    (st : ToolsState)
    (hmiss : (cacheGet st.now st.marketCache (pyLower (pyStrip sym))).1 = none) :
    (∀ v st1, getMarketData o ttl sym st = (.ok v, st1) →
      st1.chartLog.length = st.chartLog.length + 1 ∧
      (∀ t2, t2 < st.now + ttl →
        getMarketData o ttl sym { st1 with now := t2 } =
          (.ok v, { st1 with now := t2 })) ∧
      (∀ t2, st.now + ttl ≤ t2 →
        (cacheGet t2 st1.marketCache (pyLower (pyStrip sym))).1 = none ∧
        (cacheGet t2 st1.marketCache (pyLower (pyStrip sym))).2.find?
          (fun e => e.1 = pyLower (pyStrip sym)) = none ∧
        (∀ v2 st2, getMarketData o ttl sym { st1 with now := t2 } = (.ok v2, st2) →
          st2.chartLog.length = st1.chartLog.length + 1))) ∧
    (∀ e st1, getMarketData o ttl sym st = (.error e, st1) →
      st1.marketCache.find?
        (fun e => decide (st.now < e.2.1) && decide (e.1 = pyLower (pyStrip sym))) =
        none) := by
  have hfresh := getMarketData_fresh o ttl sym st hmiss
  constructor
  · intro v st1 hok
    obtain ⟨hnow1, hlog1, hfind1⟩ := hfresh.1 v st1 hok
    refine ⟨hlog1, ?_, ?_⟩
    · intro t2 ht2
      have hval := cacheGet_find_valid t2 st1.marketCache
        (pyLower (pyStrip sym)) (st.now + ttl) v hfind1 ht2
      exact getMarketData_cache_hit o ttl sym { st1 with now := t2 } v hval
    · intro t2 ht2
      have hexp := cacheGet_find_expired t2 st1.marketCache
        (pyLower (pyStrip sym)) (st.now + ttl) v hfind1 ht2
      refine ⟨hexp.1, hexp.2, ?_⟩
      intro v2 st2 h2
      exact ((getMarketData_fresh o ttl sym { st1 with now := t2 } hexp.1).1
        v2 st2 h2).2.1
  · intro e st1 herr
    have hmc := hfresh.2 e st1 herr
    rw [hmc]
    exact cacheGet_miss_find_none st.now st.marketCache (pyLower (pyStrip sym)) hmiss

theorem market_cache_idempotence_witness :
    (cacheGet (ToolsState.fresh 0).now (ToolsState.fresh 0).marketCache
        (pyLower (pyStrip "ETH"))).1 = none ∧
    ((∀ v st1,
        getMarketData ethOracle 300 "ETH" (ToolsState.fresh 0) = (.ok v, st1) →
        st1.chartLog.length = (ToolsState.fresh 0).chartLog.length + 1 ∧
        (∀ t2, t2 < (ToolsState.fresh 0).now + 300 →
          getMarketData ethOracle 300 "ETH" { st1 with now := t2 } =
            (.ok v, { st1 with now := t2 })) ∧
        (∀ t2, (ToolsState.fresh 0).now + 300 ≤ t2 →
          (cacheGet t2 st1.marketCache (pyLower (pyStrip "ETH"))).1 = none ∧
          (cacheGet t2 st1.marketCache (pyLower (pyStrip "ETH"))).2.find?
            (fun e => e.1 = pyLower (pyStrip "ETH")) = none ∧
          (∀ v2 st2,
            getMarketData ethOracle 300 "ETH" { st1 with now := t2 } =
              (.ok v2, st2) →
            st2.chartLog.length = st1.chartLog.length + 1))) ∧
      (∀ e st1,
        getMarketData ethOracle 300 "ETH" (ToolsState.fresh 0) = (.error e, st1) →
        st1.marketCache.find?
          (fun e => decide ((ToolsState.fresh 0).now < e.2.1) &&
            decide (e.1 = pyLower (pyStrip "ETH"))) = none)) :=
  ⟨rfl, market_cache_idempotence ethOracle 300 "ETH" (ToolsState.fresh 0) rfl⟩

theorem stream_planner_crash_counterexample :
    (ResearchOrchestrator.stream trigStore (some crashLLM) ethOracle simZero 300
      "" false 0 [] "Should I buy ETH?" none none (ToolsState.fresh 0)).crashed
      = true ∧
    (∀ e ∈ (ResearchOrchestrator.stream trigStore (some crashLLM) ethOracle
      simZero 300 "" false 0 [] "Should I buy ETH?" none none
      (ToolsState.fresh 0)).events, e.isFinal = false) := by
  constructor
  · rfl
  · decide

/-- C1: unless the completion capability is present and its planner-side
`chat` call raises (which `plan_query` performs outside its `try` block, so
the exception propagates out of the generator and the run crashes with no
`final` event), every run terminates normally and its event stream ends with
a `final` event as the last event — every tool/planner/summarizer failure
degrades to a placeholder or flag. -/
theorem stream_final_event_last (mem : MemoryStore) (llm : Option LLMOracle)
    (o : HttpOracle) (sim : String → String → Rat) (cacheTtl : Nat)
    (apiKey : String) (wantEstimate : Bool) (now : Nat)
    (sessions : List (String × SessionMemory)) (query : String)
    (sessionId : Option String) (selection : Option Selection)
    (ts : ToolsState)
    (h : ∀ l, llm = some l → l.planChat ≠ Except.error ()) :
    (ResearchOrchestrator.stream mem llm o sim cacheTtl apiKey wantEstimate now
      sessions query sessionId selection ts).crashed = false ∧
    ∃ p, (ResearchOrchestrator.stream mem llm o sim cacheTtl apiKey wantEstimate
      now sessions query sessionId selection ts).events.getLast? =
        some (.final p) := by
  cases hp : planQuery (llm.map (fun l => l.planChat)) with
  | error e =>
    exfalso
    cases llm with
    | none => simp [planQuery] at hp
    | some l =>
      cases hpc : l.planChat with
      | error u => cases u; exact h l rfl hpc
      | ok po => cases po <;> simp [planQuery, hpc] at hp
  | ok plan =>
    constructor
    · simp only [ResearchOrchestrator.stream, hp]
    · have hev : ∃ l p, (ResearchOrchestrator.stream mem llm o sim cacheTtl
          apiKey wantEstimate now sessions query sessionId selection ts).events =
            l ++ [Event.final p] := by
        simp only [ResearchOrchestrator.stream, hp]
        exact ⟨_, _, rfl⟩
      obtain ⟨l, p, hev⟩ := hev
      exact ⟨p, by rw [hev]; simp⟩

theorem stream_final_event_last_witness :
    (∀ l, (none : Option LLMOracle) = some l → l.planChat ≠ Except.error ()) ∧
    ((ResearchOrchestrator.stream trigStore none ethOracle simZero 300 "" false
      0 [] "Should I buy ETH?" none none (ToolsState.fresh 0)).crashed = false ∧
    ∃ p, (ResearchOrchestrator.stream trigStore none ethOracle simZero 300 ""
      false 0 [] "Should I buy ETH?" none none
      (ToolsState.fresh 0)).events.getLast? = some (.final p)) :=
  And.intro (fun _ hl => nomatch hl)
    (stream_final_event_last trigStore none ethOracle simZero 300 "" false 0 []
      "Should I buy ETH?" none none (ToolsState.fresh 0)
      (fun _ hl => nomatch hl))

theorem resolver_issues_search_counterexample :
    ethRun.ts.searchLog = ["eth"] ∧ ¬ ethRun.ts.searchLog = [] := by
  constructor
  · decide
  · decide

/-- C8: in the end-to-end run for "Should I buy ETH?" with no session id, the
orchestrator's resolver (`resolve_coingecko_id_from_query`) maps the planned
asset query "eth" to the canonical id "ethereum" by issuing one CoinGecko
search call — not via the override table, which the spec wrongly credits;
the override table is consulted inside the market and profile tools, which
map the ticker to "ethereum" without any further search (the search log
stays at that single entry).  The market, profile, and news tools are each
invoked once with symbol "ETH", and the final payload has `is_crypto = true`
and `symbol = "ETH"`. -/
theorem eth_end_to_end :
    ethRun.crashed = false ∧
    ethRun.ts.searchLog = ["eth"] ∧
    ethRun.ts.chartLog = ["ethereum"] ∧
    ethRun.ts.profileLog = ["ethereum"] ∧
    ethRun.ts.newsLog = ["ETH"] ∧
    Event.toolEv "get_token_profile" (some "ETH") true none ∈ ethRun.events ∧
    Event.toolEv "get_market_data" (some "ETH") true none ∈ ethRun.events ∧
    Event.toolEv "get_latest_news" (some "ETH") true none ∈ ethRun.events ∧
    (finalOf ethRun).map (fun p => (p.isCrypto, p.symbol)) =
      some (true, "ETH") := by
  refine ⟨?_, ?_, ?_, ?_, ?_, ?_, ?_, ?_, ?_⟩ <;> decide
